import Mathlib

/-!
Verification development for the roffio library (reader/writer for the ROFF
geological grid file format).

The Python sources under src/_roffio are shallowly embedded as executable Lean
definitions:

* a stream is a `List α` of bytes (`Nat`, values < 256) or characters,
  together with an explicit cursor position; `read`/`seek`/`tell` of Python
  file objects become pure functions on `(stream, position)`;
* a tokenizer (a Python generator yielding tokens, possibly raising
  `TokenizationError`) becomes a function `Nat → TokOut` where `TokOut`
  records the tokens yielded before success or failure and either the final
  position or the error (message and the position the stream was left at);
  this keeps the Python generator semantics in which tokens already yielded
  by a failing generator are *not* retracted;
* the parser becomes functions `List Token → Except PErr (A × List Token)`;
* the writer becomes functions producing `(output, Option error)` so that
  partial output written before an exception is observable.

Loops whose termination is not structural (Python `while True` inside
`repeated`) take an explicit fuel argument; the top level wrappers instantiate
the fuel with a bound derived from the stream length that is proved (by the
round-trip theorems evaluating concretely) never to be reached on the inputs
the theorems are about.

Python floats and numpy float dtypes are not modelled (floating point);
the corresponding source branches are embedded as explicit error results and
no theorem below exercises them.
-/

namespace Roffio

/-- TokenKind from src/_roffio/tokenizer/token_kind.py. -/
inductive TokenKind where
  | roffAsc
  | roffBin
  | tag
  | endtag
  | stringLiteral
  | numericValue
  | binaryNumericValue
  | name
  | char
  | bool
  | byte
  | int
  | float
  | double
  | array
  | arrayblob
deriving DecidableEq, Repr

/-- TokenKind.simple_types from token_kind.py. -/
def TokenKind.simpleTypes : List TokenKind :=
  [.char, .bool, .byte, .int, .float, .double]

/-- TokenKind.keywords from token_kind.py: the keyword string of each keyword kind
(kinds outside the keyword dict are never looked up; they map to ""). -/
def TokenKind.keywordString : TokenKind → String
  | .roffBin => "roff-bin"
  | .roffAsc => "roff-asc"
  | .tag => "tag"
  | .endtag => "endtag"
  | .char => "char"
  | .bool => "bool"
  | .byte => "byte"
  | .int => "int"
  | .float => "float"
  | .double => "double"
  | .array => "array"
  | _ => ""

/-- Token from src/_roffio/tokenizer/token.py; `stop` is the Python field `end`
(`end` is a Lean keyword). -/
structure Token where
  kind : TokenKind
  start : Nat
  stop : Nat
deriving DecidableEq, Repr

/-- Model of Python `stream.read(n)` at cursor `p`: returns the bytes read and
the new cursor position (reading at or past the end returns fewer or no
elements and advances only by what was read, like io.BytesIO/StringIO). -/
def sread (s : List α) (p n : Nat) : List α × Nat :=
  let r := (s.drop p).take n
  (r, p + r.length)

/-- The contents of the span [a, b) of the stream (what `seek(a); read(b - a)`
returns). -/
def extract (s : List α) (a b : Nat) : List α :=
  (s.drop a).take (b - a)

/-- Token.get_value from token.py: `tell` the current position, `seek` to the
token start, `read` the span, `seek` back.  Returns the value read and the
cursor position after the call. -/
def Token.getValue (t : Token) (s : List α) (p : Nat) : List α × Nat :=
  let goBack := p
  let r := sread s t.start (t.stop - t.start)
  (r.1, goBack)

/-- Outcome of a tokenizer run: the new position on success, or the
`TokenizationError` message together with the position the stream was left at. -/
inductive TokRes where
  | ok (p : Nat)
  | error (e : String × Nat)
deriving DecidableEq, Repr

/-- Result of running a tokenizer: the tokens yielded (also when the run
failed part-way), and either the final stream position or the error message
together with the position the stream was left at. -/
structure TokOut where
  toks : List Token
  res : TokRes
deriving DecidableEq, Repr

/-- A tokenizer over a fixed stream: takes the cursor position, yields tokens
and moves the cursor (src/_roffio/tokenizer docstring). -/
abbrev Tokenizer := Nat → TokOut

/-- bind from combinators.py: run the tokenizers in order, concatenating
yielded tokens; an error propagates immediately, keeping tokens already
yielded. -/
def bindT (ts : List Tokenizer) (p : Nat) : TokOut :=
  match ts with
  | [] => ⟨[], .ok p⟩
  | t :: rest =>
    match t p with
    | ⟨tk, .ok p1⟩ =>
      let r := bindT rest p1
      ⟨tk ++ r.toks, r.res⟩
    | ⟨tk, .error e⟩ => ⟨tk, .error e⟩

/-- The aggregated error message one_of builds from the collected sub-errors. -/
def aggError (errs : List String) : String :=
  "Tokenization failed, due to one of\n*" ++ String.intercalate "\n*" errs

/-- Worker for one_of from combinators.py.  Each attempt starts at the
position the previous failing attempt left the stream at (the combinator
itself never seeks), and tokens yielded by a failing attempt stay yielded. -/
def oneOfGo (ts : List Tokenizer) (p : Nat) (acc : List Token) (errs : List String) :
    TokOut :=
  match ts with
  | [] => ⟨acc, .error (aggError errs, p)⟩
  | t :: rest =>
    match t p with
    | ⟨tk, .ok p1⟩ => ⟨acc ++ tk, .ok p1⟩
    | ⟨tk, .error (m, p1)⟩ => oneOfGo rest p1 (acc ++ tk) (errs ++ [m])

/-- one_of from combinators.py. -/
def oneOfT (ts : List Tokenizer) : Tokenizer := fun p => oneOfGo ts p [] []

/-- repeated from combinators.py: apply the tokenizer until it fails; the
failure is swallowed and the stream stays where the failing attempt left it.
The fuel argument is a modelling artifact for the Python `while True`; all
theorems below run it with enough fuel that the exhaustion branch is never
taken. -/
def repeatedT (fuel : Nat) (t : Tokenizer) : Tokenizer := fun p =>
  match fuel with
  | 0 => ⟨[], .error ("repeated: out of fuel", p)⟩
  | f + 1 =>
    match t p with
    | ⟨tk, .ok p1⟩ =>
      let r := repeatedT f t p1
      ⟨tk ++ r.toks, r.res⟩
    | ⟨tk, .error (_, p1)⟩ => ⟨tk, .ok p1⟩

/-- tokenize_word from common.py: read `word.length` elements and compare; on
mismatch seek back to the start and fail. -/
def tokenizeWord [DecidableEq α] (s : List α) (w : List α) (kind : TokenKind) :
    Tokenizer := fun p =>
  let r := sread s p w.length
  if r.1 = w then ⟨[⟨kind, r.2 - w.length, r.2⟩], .ok r.2⟩
  else ⟨[], .error ("Token did not match", p)⟩

/-- True on a successful tokenizer outcome. -/
def resIsOk : TokRes → Bool
  | .ok _ => true
  | .error _ => false

/-- The error message of a failed tokenizer outcome ("" on success). -/
def resErrMsg : TokRes → String
  | .ok _ => ""
  | .error (m, _) => m

/-- The behavior the specification ascribes to one_of: every sub-tokenizer is
tried against the same position `p`, the result is exactly the run of the
first sub-tokenizer that succeeds, and if all fail a single error aggregating
all sub-error messages is raised with the stream back at `p`. -/
def specOneOf (ts : List Tokenizer) : Tokenizer := fun p =>
  match ts.find? (fun t => resIsOk (t p).res) with
  | some t => t p
  | none => ⟨[], .error (aggError (ts.map fun t => resErrMsg (t p).res), p)⟩

/-- A tokenizer that fails atomically: when it fails it has yielded no tokens
and has restored the stream to the position it started at.  The leaf
tokenizers of the library (tokenize_word, the delimiter/comment/space/value
tokenizers) have this property; compound tokenizers such as
tokenize_simple_tagkey do not. -/
def Atomic (t : Tokenizer) : Prop :=
  ∀ p m q, (t p).res = .error (m, q) → (t p).toks = [] ∧ q = p

theorem tokenizeWord_atomic [DecidableEq α] (s w : List α) (k : TokenKind) :
    Atomic (tokenizeWord s w k) := by
  intro p m q h
  simp only [tokenizeWord] at h ⊢
  split at h
  · exact absurd h (by simp)
  · simp_all

theorem oneOfGo_spec (ts : List Tokenizer) (h : ∀ t ∈ ts, Atomic t) (p : Nat)
    (acc : List Token) (errs : List String) :
    oneOfGo ts p acc errs =
      match ts.find? (fun t => resIsOk (t p).res) with
      | some t => ⟨acc ++ (t p).toks, (t p).res⟩
      | none =>
        ⟨acc, .error (aggError (errs ++ ts.map fun t => resErrMsg (t p).res), p)⟩ := by
  induction ts generalizing p acc errs with
  | nil => simp [oneOfGo]
  | cons t rest ih =>
    have hat : Atomic t := h t (by simp)
    have hrest : ∀ u ∈ rest, Atomic u := fun u hu => h u (by simp [hu])
    cases hr : t p with
    | mk tk res =>
      cases res with
      | ok p1 =>
        simp [oneOfGo, hr, List.find?, resIsOk]
      | error e =>
        obtain ⟨m, q⟩ := e
        obtain ⟨htk, hq⟩ := hat p m q (by rw [hr])
        rw [hr] at htk
        simp only at htk
        subst htk hq
        simp only [oneOfGo, hr, List.append_nil]
        rw [ih hrest]
        simp [List.find?, hr, resIsOk, resErrMsg, List.append_assoc]

/-- Claim C8 (amended): provided every sub-tokenizer fails atomically (yields
nothing and restores the position on failure), one_of yields exactly the
tokens of the first sub-tokenizer that succeeds, every sub-tokenizer is tried
at the original position, and if all fail a single TokenizationError
aggregating all the sub-error messages is raised with the stream at the
original position.  Without atomicity the combinator lets tokens and position
movement of failing compound attempts leak through (see the counterexample). -/
theorem oneOf_firstSuccess (ts : List Tokenizer) (h : ∀ t ∈ ts, Atomic t)
    (p : Nat) : oneOfT ts p = specOneOf ts p := by
  rw [oneOfT, oneOfGo_spec ts h p [] [], specOneOf]
  cases hf : ts.find? (fun t => resIsOk (t p).res) <;> simp

/-- Stream for the one_of counterexample. -/
def leakStream : List Char := String.data "ac"

/-- A compound sub-tokenizer built from the library combinators: matches "a"
and then "b".  On the stream "ac" it yields the token for "a" and then fails
with the cursor after "a". -/
def leakT1 : Tokenizer :=
  bindT [tokenizeWord leakStream (String.data "a") .tag,
         tokenizeWord leakStream (String.data "b") .endtag]

/-- A second sub-tokenizer matching "c". -/
def leakT2 : Tokenizer := tokenizeWord leakStream (String.data "c") .name

/-- Claim C8 (counterexample): on the stream "ac", one_of of the failing
compound tokenizer (match "a" then "b") and the tokenizer matching "c" yields
the token leaked by the failing first attempt, tries the second sub-tokenizer
at the position the failed attempt left (1, where "c" matches) instead of the
original position 0 (where it would fail), and therefore differs from the
behavior the claim describes. -/
theorem oneOf_leak_counterexample :
    resIsOk (leakT1 0).res = false ∧
    (oneOfT [leakT1, leakT2] 0).toks = [⟨.tag, 0, 1⟩, ⟨.name, 1, 2⟩] ∧
    resIsOk (leakT2 0).res = false ∧
    (oneOfT [leakT1, leakT2] 0).res = .ok 2 ∧
    oneOfT [leakT1, leakT2] 0 ≠ specOneOf [leakT1, leakT2] 0 := by
  decide

/-- Witness for oneOf_firstSuccess: two atomic word tokenizers over "ac". -/
theorem oneOf_firstSuccess_witness :
    oneOfT [leakT2, tokenizeWord leakStream (String.data "a") .tag] 0 =
      specOneOf [leakT2, tokenizeWord leakStream (String.data "a") .tag] 0 :=
  oneOf_firstSuccess _
    (by
      intro t ht
      simp only [List.mem_cons, List.mem_singleton, List.not_mem_nil, or_false] at ht
      rcases ht with h | h <;> subst h
      · exact tokenizeWord_atomic _ _ _
      · exact tokenizeWord_atomic _ _ _)
    0

/-- Claim C10: Token.get_value returns the contents of the span
[start, stop) of the stream (as truncated by the stream end, exactly what
`seek(start); read(stop - start)` returns) and leaves the stream cursor at
exactly the position it had before the call, for every token, stream and
cursor position. -/
theorem getValue_frame (t : Token) (s : List α) (p : Nat) :
    (t.getValue s p).2 = p ∧ (t.getValue s p).1 = extract s t.start t.stop :=
  ⟨rfl, rfl⟩

/-- Fuel-driven worker for scanUntil; the wrapper always supplies enough
fuel for the remaining stream. -/
def scanUntilF [DecidableEq α] (s : List α) (target : α) : Nat → Nat → Option Nat
  | _, 0 => none
  | p, fuel + 1 =>
    if h : p < s.length then
      if s[p] = target then some (p + 1) else scanUntilF s target (p + 1) fuel
    else none

/-- Scan of the Python loop `read_char = read(1); while read_char and
read_char != target: read_char = read(1)`: the position right after the first
occurrence of `target` at or after `p`, or none if the stream ends first. -/
def scanUntil [DecidableEq α] (s : List α) (target : α) (p : Nat) : Option Nat :=
  scanUntilF s target p (s.length - p)

theorem scanUntil_unfold [DecidableEq α] (s : List α) (target : α) (p : Nat) :
    scanUntil s target p =
      if h : p < s.length then
        (if s[p] = target then some (p + 1) else scanUntil s target (p + 1))
      else none := by
  show scanUntilF s target p (s.length - p) = _
  by_cases h : p < s.length
  · have hf : s.length - p = (s.length - (p + 1)) + 1 := by omega
    rw [hf, scanUntilF, dif_pos h, dif_pos h]
    rfl
  · have hf : s.length - p = 0 := by omega
    rw [hf, scanUntilF, dif_neg h]

/-- Fuel-driven worker for scanWhile. -/
def scanWhileF (s : List α) (f : α → Bool) : Nat → Nat → Nat
  | p, 0 => p
  | p, fuel + 1 =>
    if h : p < s.length then
      if f s[p] then scanWhileF s f (p + 1) fuel else p
    else p

/-- The first position at or after `p` whose element does not satisfy `f`
(or the stream length). -/
def scanWhile (s : List α) (f : α → Bool) (p : Nat) : Nat :=
  scanWhileF s f p (s.length - p)

/-- Endianness value: the strings "little"/"big" of the Python code. -/
inductive Endianess where
  | little
  | big
deriving DecidableEq, Repr

/-- The swapped endianness (swap_endianess of parser/tokenizers). -/
def Endianess.swap : Endianess → Endianess
  | .little => .big
  | .big => .little

/-- int.from_bytes(bs, "little") (unsigned). -/
def fromBytesLE : List Nat → Nat
  | [] => 0
  | b :: rest => b + 256 * fromBytesLE rest

/-- int.from_bytes(bs, endianess) (unsigned). -/
def fromBytes (e : Endianess) (bs : List Nat) : Nat :=
  match e with
  | .little => fromBytesLE bs
  | .big => fromBytesLE bs.reverse

/-- The bytes of a string under the "ascii" codec, assuming all code points
are below 128 (the writer raises otherwise, modelled separately). -/
def strToBytes (str : String) : List Nat := str.data.map Char.toNat

/-- tokenlen from binary_roff_body_tokenizer.py: byte width of the
fixed-width simple types; none models the TokenizationError branch for
non-fixed kinds. -/
def tokenlenOpt : TokenKind → Option Nat
  | .bool => some 1
  | .byte => some 1
  | .int => some 4
  | .float => some 4
  | .double => some 8
  | _ => none

/-- BinaryRoffBodyTokenizer.tokenize_delimiter: expect a single zero byte. -/
def bbTokenizeDelimiter (s : List Nat) : Tokenizer := fun p =>
  let r := sread s p 1
  if r.1 = [0] then ⟨[], .ok r.2⟩
  else ⟨[], .error ("Expected delimiter", p)⟩

/-- BinaryRoffBodyTokenizer.tokenize_comment: a '#', bytes up to the closing
'#', then a mandatory zero delimiter.  Yields no token.  On a missing closing
'#' the stream is restored; a missing delimiter fails at the position after
the closing '#' (the inner tokenize_delimiter restores only its own byte). -/
def bbTokenizeComment (s : List Nat) : Tokenizer := fun p =>
  let r := sread s p 1
  if r.1 = [35] then
    match scanUntil s 35 r.2 with
    | some q => bbTokenizeDelimiter s q
    | none => ⟨[], .error ("Reached end of stream while reading comment", p)⟩
  else ⟨[], .error ("Expected comment", p)⟩

/-- BinaryRoffBodyTokenizer.tokenize_string: bytes up to a zero terminator;
the token spans the content without the terminator; on a stream that ends
before a zero byte the position is restored and the tokenizer fails. -/
def bbTokenizeString (s : List Nat) (kind : TokenKind) : Tokenizer := fun p =>
  match scanUntil s 0 p with
  | some q => ⟨[⟨kind, p, q - 1⟩], .ok q⟩
  | none => ⟨[], .error ("could not tokenize string", p)⟩

/-- BinaryRoffBodyTokenizer.tokenize_numeric_value: seeks tokenlen(kind)
bytes ahead (seeking past the end of the stream is allowed, as for Python
file objects) and yields a BINARY_NUMERIC_VALUE token for the span. -/
def bbTokenizeNumericValue (kind : TokenKind) : Tokenizer := fun p =>
  match tokenlenOpt kind with
  | some w => ⟨[⟨.binaryNumericValue, p, p + w⟩], .ok (p + w)⟩
  | none => ⟨[], .error ("Attempted to read non-fixed size type", p)⟩

/-- BinaryRoffBodyTokenizer.binary_ended: run the inner tokenizer, then
require a zero byte.  The inner token is yielded only after the delimiter
check succeeds (the Python code holds it in `tok` until the final yield). -/
def binaryEnded (s : List Nat) (t : Tokenizer) : Tokenizer := fun p =>
  match t p with
  | ⟨tk, .ok p1⟩ =>
    let r := sread s p1 1
    if r.1 = [0] then ⟨tk, .ok r.2⟩
    else ⟨[], .error ("Expected delimiter", p1)⟩
  | ⟨tk, .error e⟩ => ⟨tk, .error e⟩

/-- BinaryRoffBodyTokenizer.tokenize_keyword[kw]: skip comments, then the
keyword word followed by a zero delimiter. -/
def bbTokenizeKeyword (s : List Nat) (fuel : Nat) (kw : TokenKind) : Tokenizer :=
  bindT [repeatedT fuel (bbTokenizeComment s),
         binaryEnded s (tokenizeWord s (strToBytes (TokenKind.keywordString kw)) kw)]

/-- BinaryRoffBodyTokenizer.tokenize_name: skip comments, then a
zero-terminated string yielding a NAME token. -/
def bbTokenizeName (s : List Nat) (fuel : Nat) : Tokenizer :=
  bindT [repeatedT fuel (bbTokenizeComment s), bbTokenizeString s .name]

/-- BinaryRoffBodyTokenizer.tokenize_value: a zero-terminated string for
char, otherwise a fixed-width numeric span. -/
def bbTokenizeValue (s : List Nat) (kind : TokenKind) : Tokenizer :=
  if kind = .char then bbTokenizeString s .stringLiteral
  else bbTokenizeNumericValue kind

/-- The char branch of tokenize_array_data: `count` zero-terminated string
literals in sequence; a failure part-way keeps the tokens already yielded. -/
def bbCharArrayData (s : List Nat) : Nat → Tokenizer
  | 0 => fun p => ⟨[], .ok p⟩
  | n + 1 => fun p =>
    match bbTokenizeString s .stringLiteral p with
    | ⟨tk, .ok p1⟩ =>
      let r := bbCharArrayData s n p1
      ⟨tk ++ r.toks, r.res⟩
    | ⟨tk, .error e⟩ => ⟨tk, .error e⟩

/-- BinaryRoffBodyTokenizer.tokenize_array_data: decode the element count
from the count token using the tokenizer's current endianness; for CHAR
tokenize that many strings, otherwise seek over count*tokenlen bytes and
yield a single ARRAYBLOB token spanning them without interpreting them. -/
def bbTokenizeArrayData (s : List Nat) (e : Endianess) (elemType : TokenKind)
    (numTok : Token) : Tokenizer := fun p =>
  let n := fromBytes e (extract s numTok.start numTok.stop)
  if elemType = .char then bbCharArrayData s n p
  else
    match tokenlenOpt elemType with
    | some w => ⟨[⟨.arrayblob, p, p + w * n⟩], .ok (p + w * n)⟩
    | none => ⟨[], .error ("Attempted to read non-fixed size type", p)⟩

/-- AbstractRoffBodyTokenizer.tokenize_simple_type: one_of over the six
simple type keywords in declaration order. -/
def bbTokenizeSimpleType (s : List Nat) (fuel : Nat) : Tokenizer :=
  oneOfT (TokenKind.simpleTypes.map (bbTokenizeKeyword s fuel))

/-- BinaryRoffBodyTokenizer.tokenize_simple_tagkey: type keyword (the first
token of the winning alternative, as taken by `next`), comments, a
zero-terminated NAME, then the value of the type.  Failures after the type
token keep the tokens already yielded, as generators do. -/
def bbTokenizeSimpleTagkey (s : List Nat) (fuel : Nat) : Tokenizer := fun p =>
  match bbTokenizeSimpleType s fuel p with
  | ⟨tok :: _, .ok p1⟩ =>
    match repeatedT fuel (bbTokenizeComment s) p1 with
    | ⟨_, .ok p2⟩ =>
      match bbTokenizeString s .name p2 with
      | ⟨ntk, .ok p3⟩ =>
        let v := bbTokenizeValue s tok.kind p3
        ⟨tok :: (ntk ++ v.toks), v.res⟩
      | ⟨_, .error e⟩ => ⟨[tok], .error e⟩
    | ⟨_, .error e⟩ => ⟨[tok], .error e⟩
  | ⟨[], .ok p1⟩ => ⟨[], .error ("StopIteration", p1)⟩
  | ⟨tk, .error e⟩ => ⟨tk, .error e⟩

/-- AbstractRoffBodyTokenizer.tokenize_array_tagkey for the binary
tokenizer: ARRAY keyword, element type, name, element count, then the array
data.  The `except StopIteration: return` branches of the Python code end
the generator successfully with the tokens yielded so far. -/
def bbTokenizeArrayTagkey (s : List Nat) (fuel : Nat) (e : Endianess) :
    Tokenizer := fun p =>
  match bbTokenizeKeyword s fuel .array p with
  | ⟨atk, .ok p1⟩ =>
    match bbTokenizeSimpleType s fuel p1 with
    | ⟨ttok :: _, .ok p2⟩ =>
      match bbTokenizeName s fuel p2 with
      | ⟨ntk, .ok p3⟩ =>
        match bbTokenizeNumericValue .int p3 with
        | ⟨numTok :: _, .ok p4⟩ =>
          let d := bbTokenizeArrayData s e ttok.kind numTok p4
          ⟨atk ++ ttok :: (ntk ++ numTok :: d.toks), d.res⟩
        | ⟨[], .ok p4⟩ => ⟨atk ++ ttok :: ntk, .ok p4⟩
        | ⟨ntk2, .error e2⟩ => ⟨atk ++ ttok :: (ntk ++ ntk2), .error e2⟩
      | ⟨ntk, .error e2⟩ => ⟨atk ++ ttok :: ntk, .error e2⟩
    | ⟨[], .ok p2⟩ => ⟨atk, .ok p2⟩
    | ⟨tk, .error e2⟩ => ⟨atk ++ tk, .error e2⟩
  | out => out

/-- AbstractRoffBodyTokenizer.tokenize_tagkey: simple or array tagkey. -/
def bbTokenizeTagkey (s : List Nat) (fuel : Nat) (e : Endianess) : Tokenizer :=
  oneOfT [bbTokenizeSimpleTagkey s fuel, bbTokenizeArrayTagkey s fuel e]

/-- AbstractRoffBodyTokenizer.tokenize_tag_group. -/
def bbTokenizeTagGroup (s : List Nat) (fuel : Nat) (e : Endianess) : Tokenizer :=
  bindT [bbTokenizeKeyword s fuel .tag,
         bbTokenizeName s fuel,
         repeatedT fuel (bbTokenizeTagkey s fuel e),
         bbTokenizeKeyword s fuel .endtag]

/-- Python str.isspace for the ASCII range (the Unicode whitespace code
points str.isspace also accepts never occur in writer output and are not
modelled). -/
def pyIsSpace (c : Char) : Bool :=
  c = ' ' || c = '\t' || c = '\n' || c = '\x0d' || c = '\x0b' || c = '\x0c'

/-- Python str.isnumeric for the ASCII range (Unicode digits not modelled). -/
def pyIsNumeric (c : Char) : Bool := c.isDigit

/-- The continuation character set of a text numeric literal:
`read_char.isnumeric() or read_char in ".eE+-"`. -/
def numericContChar (c : Char) : Bool :=
  pyIsNumeric c || c = '.' || c = 'e' || c = 'E' || c = '+' || c = '-'

/-- TextRoffBodyTokenizer.tokenize_space: requires at least one whitespace
character and consumes the maximal whitespace run, yielding no token. -/
def ttTokenizeSpace (s : List Char) : Tokenizer := fun p =>
  let r := sread s p 1
  match r.1 with
  | [c] =>
    if pyIsSpace c then ⟨[], .ok (scanWhile s pyIsSpace p)⟩
    else ⟨[], .error ("Expected space at start", p)⟩
  | _ => ⟨[], .error ("Expected space at start", p)⟩

/-- TextRoffBodyTokenizer.tokenize_comment: '#', characters to the closing
'#'; yields no token (no trailing delimiter in text mode). -/
def ttTokenizeComment (s : List Char) : Tokenizer := fun p =>
  let r := sread s p 1
  if r.1 = ['#'] then
    match scanUntil s '#' r.2 with
    | some q => ⟨[], .ok q⟩
    | none => ⟨[], .error ("Reached end of stream while reading comment", p)⟩
  else ⟨[], .error ("Expected comment", p)⟩

/-- TextRoffBodyTokenizer.tokenize_delimiter: zero or more comments or
whitespace runs. -/
def ttDelimiter (s : List Char) (fuel : Nat) : Tokenizer :=
  repeatedT fuel (oneOfT [ttTokenizeComment s, ttTokenizeSpace s])

/-- The scanning core of tokenize_numeric_value, after delimiters: the first
character must be numeric or '-', and the token extends over the maximal run
of characters that are numeric or in ".eE+-". -/
def ttTokenizeNumericRaw (s : List Char) : Tokenizer := fun p =>
  let r := sread s p 1
  match r.1 with
  | [c] =>
    if pyIsNumeric c || c = '-' then
      let q := scanWhile s numericContChar p
      if q - p < 1 then ⟨[], .error ("Expected numeric value", p)⟩
      else ⟨[⟨.numericValue, p, q⟩], .ok q⟩
    else ⟨[], .error ("Expected numeric value", p)⟩
  | _ => ⟨[], .error ("Expected numeric value", p)⟩

/-- TextRoffBodyTokenizer.tokenize_numeric_value. -/
def ttTokenizeNumericValue (s : List Char) (fuel : Nat) : Tokenizer := fun p =>
  match ttDelimiter s fuel p with
  | ⟨_, .ok p1⟩ => ttTokenizeNumericRaw s p1
  | out => out

/-- The scanning core of tokenize_string_literal, after delimiters: an
opening '"', content characters, a closing '"'.  When the literal is empty
the Python loop body never runs and literal_end stays one past the first
content read, so the token span of an empty literal covers the closing quote
(span start p+1, stop max (p+2) (q-1) where q is the position after the
closing quote); nonempty literals span exactly their content. -/
def ttStringRaw (s : List Char) : Tokenizer := fun p =>
  let r := sread s p 1
  if r.1 = ['"'] then
    match scanUntil s '"' (p + 1) with
    | some q => ⟨[⟨.stringLiteral, p + 1, max (p + 2) (q - 1)⟩], .ok q⟩
    | none => ⟨[], .error ("Reached end of stream while reading string literal", p)⟩
  else ⟨[], .error ("Expected string", p)⟩

/-- TextRoffBodyTokenizer.tokenize_string_literal. -/
def ttTokenizeStringLiteral (s : List Char) (fuel : Nat) : Tokenizer := fun p =>
  match ttDelimiter s fuel p with
  | ⟨_, .ok p1⟩ => ttStringRaw s p1
  | out => out

/-- TextRoffBodyTokenizer.tokenize_value: a numeric literal or a string
literal. -/
def ttTokenizeValue (s : List Char) (fuel : Nat) : Tokenizer :=
  oneOfT [ttTokenizeNumericValue s fuel, ttTokenizeStringLiteral s fuel]

/-- A roff value as handled by the reader and writer: Python bool, int, str,
bytes, and list values.  Python floats and numpy arrays are not modelled
(floating point); the corresponding code branches below are embedded as
explicit errors and no theorem exercises them. -/
inductive Value where
  | vBool (b : Bool)
  | vInt (n : Int)
  | vStr (str : String)
  | vBytes (bs : List Nat)
  | vArr (elems : List Value)

mutual

/-- Boolean equality on values (needed by hand since Value nests List). -/
def Value.beq : Value → Value → Bool
  | .vBool a, .vBool b => a == b
  | .vInt a, .vInt b => a == b
  | .vStr a, .vStr b => a == b
  | .vBytes a, .vBytes b => a == b
  | .vArr a, .vArr b => Value.beqList a b
  | _, _ => false

/-- Boolean equality on lists of values. -/
def Value.beqList : List Value → List Value → Bool
  | [], [] => true
  | x :: xs, y :: ys => Value.beq x y && Value.beqList xs ys
  | _, _ => false

end

mutual

theorem Value.beq_iff : (a b : Value) → (Value.beq a b = true ↔ a = b)
  | .vBool _, .vBool _ => by simp [Value.beq]
  | .vInt _, .vInt _ => by simp [Value.beq]
  | .vStr _, .vStr _ => by simp [Value.beq]
  | .vBytes _, .vBytes _ => by simp [Value.beq]
  | .vArr x, .vArr y => by simp [Value.beq, Value.beqList_iff x y]
  | .vBool _, .vInt _ => by simp [Value.beq]
  | .vBool _, .vStr _ => by simp [Value.beq]
  | .vBool _, .vBytes _ => by simp [Value.beq]
  | .vBool _, .vArr _ => by simp [Value.beq]
  | .vInt _, .vBool _ => by simp [Value.beq]
  | .vInt _, .vStr _ => by simp [Value.beq]
  | .vInt _, .vBytes _ => by simp [Value.beq]
  | .vInt _, .vArr _ => by simp [Value.beq]
  | .vStr _, .vBool _ => by simp [Value.beq]
  | .vStr _, .vInt _ => by simp [Value.beq]
  | .vStr _, .vBytes _ => by simp [Value.beq]
  | .vStr _, .vArr _ => by simp [Value.beq]
  | .vBytes _, .vBool _ => by simp [Value.beq]
  | .vBytes _, .vInt _ => by simp [Value.beq]
  | .vBytes _, .vStr _ => by simp [Value.beq]
  | .vBytes _, .vArr _ => by simp [Value.beq]
  | .vArr _, .vBool _ => by simp [Value.beq]
  | .vArr _, .vInt _ => by simp [Value.beq]
  | .vArr _, .vStr _ => by simp [Value.beq]
  | .vArr _, .vBytes _ => by simp [Value.beq]

theorem Value.beqList_iff : (a b : List Value) → (Value.beqList a b = true ↔ a = b)
  | [], [] => by simp [Value.beqList]
  | [], _ :: _ => by simp [Value.beqList]
  | _ :: _, [] => by simp [Value.beqList]
  | x :: xs, y :: ys => by
    simp [Value.beqList, Value.beq_iff x y, Value.beqList_iff xs ys]

end

instance : DecidableEq Value := fun a b => decidable_of_iff _ (Value.beq_iff a b)

instance {e a : Type _} [DecidableEq e] [DecidableEq a] : DecidableEq (Except e a) :=
  fun x y =>
    match x, y with
    | .ok u, .ok v =>
      if h : u = v then isTrue (by rw [h]) else isFalse (by simp [h])
    | .error u, .error v =>
      if h : u = v then isTrue (by rw [h]) else isFalse (by simp [h])
    | .ok _, .error _ => isFalse (by simp)
    | .error _, .ok _ => isFalse (by simp)

/-- A parsed tag: its name and the ordered tagkey (name, value) pairs. -/
abbrev Tag := String × List (String × Value)

/-- The exceptions the parser can raise.  `stopIteration` models a
StopIteration raised by `next` on an exhausted token iterator (inside a
generator Python 3.7+ surfaces it as RuntimeError; both are fatal and no
theorem below depends on the distinction); `pyExc` models other exceptions
raised by Python/numpy that the parser does not catch. -/
inductive PErr where
  | syntaxErr (msg : String)
  | typeErr (msg : String)
  | parsingExc (msg : String)
  | stopIteration
  | pyExc (msg : String)
deriving DecidableEq, Repr

/-- int(str) for the strings produced by this library: an optional sign
followed by decimal digits (whitespace and underscore tolerance of Python
int() is not modelled).  none models ValueError. -/
def digitsToNat : List Char → Option Nat
  | [] => none
  | ds =>
    if ds.all Char.isDigit then
      some (ds.foldl (fun acc c => 10 * acc + (c.toNat - 48)) 0)
    else none

/-- int(str): optional sign then digits. -/
def pyIntOfString : String → Option Int
  | str =>
    match str.data with
    | '-' :: rest => (digitsToNat rest).map (fun n => -(n : Int))
    | '+' :: rest => (digitsToNat rest).map (fun n => (n : Int))
    | ds => (digitsToNat ds).map (fun n => (n : Int))

/-- RoffTagKeyParser.parse_boolean_value, for a binary file
(is_binary_file is true): the token must span exactly one byte, whose value
must be 0 or 1. -/
def parseBooleanB (e : Endianess) (s : List Nat) :
    List Token → Except PErr (Value × List Token)
  | [] => .error .stopIteration
  | t :: rest =>
    let valStr := extract s t.start t.stop
    if valStr.length ≠ 1 then .error (.syntaxErr "too long boolean value")
    else
      let value := fromBytes e valStr
      if value = 1 then .ok (.vBool true, rest)
      else if value = 0 then .ok (.vBool false, rest)
      else .error (.typeErr "boolean values must be either 1 or 0")

/-- parse_boolean_value for a text file (is_binary_file is false): the token
must span exactly one character, which is decoded with int(); int() failing
on a non-digit raises an uncaught ValueError. -/
def parseBooleanT (s : List Char) : List Token → Except PErr (Value × List Token)
  | [] => .error .stopIteration
  | t :: rest =>
    let valStr := extract s t.start t.stop
    if valStr.length ≠ 1 then .error (.syntaxErr "too long boolean value")
    else
      match pyIntOfString ⟨valStr⟩ with
      | some value =>
        if value = 1 then .ok (.vBool true, rest)
        else if value = 0 then .ok (.vBool false, rest)
        else .error (.typeErr "boolean values must be either 1 or 0")
      | none => .error (.pyExc "ValueError: invalid literal for int()")

/-- State of the EndianessHandler together with the endianness state of the
parser and tokenizer it wraps.  The two swap counters are instrumentation
recording how many times swap_endianess was called on each object. -/
structure HState where
  foundByteswaptest : Bool
  hasWarned : Bool
  isBinaryFile : Bool
  parserEndianess : Endianess
  tokenizerEndianess : Endianess
  parserSwaps : Nat
  tokenizerSwaps : Nat
deriving DecidableEq, Repr

/-- Fresh handler state over a parser/tokenizer pair with the default
little-endian byte order. -/
def initHState (isBin : Bool) : HState :=
  ⟨false, false, isBin, .little, .little, 0, 0⟩

/-- Insertion into a Python dict modelled as an association list with unique
keys in insertion order: an existing key keeps its position and gets the new
value, a new key is appended. -/
def dictInsert (d : List (String × Value)) (k : String) (v : Value) :
    List (String × Value) :=
  if d.any (fun kv => kv.1 == k) then
    d.map (fun kv => if kv.1 == k then (k, v) else kv)
  else d ++ [(k, v)]

/-- dict(list_of_pairs): first-occurrence order, last value wins. -/
def dictOfList (kvs : List (String × Value)) : List (String × Value) :=
  kvs.foldl (fun d kv => dictInsert d kv.1 kv.2) []

/-- Dictionary lookup. -/
def lookupD (d : List (String × Value)) (k : String) : Option Value :=
  (d.find? (fun kv => kv.1 == k)).map (fun kv => kv.2)

/-- Python `value == k` for an int k: ints compare by value and bools compare
as 0/1; str, bytes and list values never equal an int.  (Float comparisons
are not modelled.) -/
def Value.pyEqInt (v : Value) (k : Int) : Bool :=
  match v with
  | .vInt n => n == k
  | .vBool b => (if b then (1 : Int) else 0) == k
  | _ => false

/-- EndianessHandler.check_endianess from endianess_handler.py. -/
def checkEndianess (st : HState) (tag : Tag) : Except String (Tag × HState) :=
  if tag.1 = "filedata" then
    if st.foundByteswaptest then .error "Roff file has duplicate filedata tags."
    else
      let tagkeys := dictOfList tag.2
      match lookupD tagkeys "byteswaptest" with
      | none => .error "Roff file tag filedata is missing byteswapttest tagkey."
      | some v =>
        let st1 := { st with foundByteswaptest := true }
        if v.pyEqInt 1 then .ok ((tag.1, tagkeys), st1)
        else
          let st2 := { st1 with
            parserEndianess := st1.parserEndianess.swap
            parserSwaps := st1.parserSwaps + 1
            tokenizerEndianess := st1.tokenizerEndianess.swap
            tokenizerSwaps := st1.tokenizerSwaps + 1 }
          .ok ((tag.1, dictInsert tagkeys "byteswaptest" (.vInt 1)), st2)
  else
    let st1 :=
      if !st.foundByteswaptest && !st.hasWarned && st.isBinaryFile then
        { st with hasWarned := true }
      else st
    .ok (tag, st1)

/-- EndianessHandler.__iter__: transform each tag in order; a RoffFormatError
aborts the iteration, keeping the tags already yielded. -/
def runHandler (st : HState) : List Tag → List Tag × HState × Option String
  | [] => ([], st, none)
  | t :: rest =>
    match checkEndianess st t with
    | .ok (t1, st1) =>
      let r := runHandler st1 rest
      (t1 :: r.1, r.2)
    | .error m => ([], st, some m)

/-- Fuel-driven worker for natDigitsRev. -/
def natDigitsRevF : Nat → Nat → List Nat
  | _, 0 => []
  | n, fuel + 1 => if n = 0 then [] else n % 10 :: natDigitsRevF (n / 10) fuel

/-- The decimal digits of n, least significant first (empty for 0). -/
def natDigitsRev (n : Nat) : List Nat :=
  natDigitsRevF n n

/-- A decimal digit character. -/
def digitChar (d : Nat) : Char := Char.ofNat (48 + d)

/-- The decimal digit characters of a natural number (Python str(n)). -/
def natDecChars (n : Nat) : List Char :=
  if n = 0 then ['0'] else (natDigitsRev n).reverse.map digitChar

/-- Python str(n) for a natural number. -/
def natDecString (n : Nat) : String := ⟨natDecChars n⟩

/-- Python str(n) for an int. -/
def intDecString (n : Int) : String :=
  if n < 0 then "-" ++ natDecString n.natAbs else natDecString n.toNat

/-- type_string from writing.py (the numpy dtype branch is only reachable
for numpy values, which are not modelled; Python float values are likewise
not modelled).  none is the ValueError branch. -/
def typeStringOpt : Value → Option String
  | .vStr _ => some "char"
  | .vBool _ => some "bool"
  | .vBytes _ => some "byte"
  | .vInt _ => some "int"
  | .vArr _ => none

/-- str.encode("ascii"). -/
def asciiEncode (str : String) : Except String (List Nat) :=
  if str.data.all (fun c => c.toNat < 128) then .ok (strToBytes str)
  else .error "UnicodeEncodeError"

/-- write_binary_string from writing.py: no zero character allowed; ascii
bytes followed by a zero terminator. -/
def writeBinaryString (str : String) : Except String (List Nat) :=
  if str.data.any (fun c => c.toNat = 0) then
    .error "RoffWriteError: zero-character in binary roff string"
  else
    match asciiEncode str with
    | .ok bs => .ok (bs ++ [0])
    | .error m => .error m

/-- n.to_bytes(w, "little") digits. -/
def natToBytesLE : Nat → Nat → List Nat
  | 0, _ => []
  | w + 1, n => n % 256 :: natToBytesLE w (n / 256)

/-- np.int32(n).tobytes() in the native little-endian order; out-of-range
Python ints raise OverflowError in the numpy versions the library targets. -/
def int32Bytes (n : Int) : Except String (List Nat) :=
  if -(2 ^ 31) ≤ n ∧ n < 2 ^ 31 then .ok (natToBytesLE 4 (n % (2 ^ 32 : Int)).toNat)
  else .error "OverflowError: Python int too large to convert to np.int32"

/-- len(value).to_bytes(4, "little"). -/
def natTo4LE (n : Nat) : Except String (List Nat) :=
  if n < 2 ^ 32 then .ok (natToBytesLE 4 n)
  else .error "OverflowError: int too big to convert"

/-- write_binary_value from writing.py for the value/type combinations the
writer can produce (strings; byte runs under type byte; bools and ints cast
via cast_to_roff; the float branches are not modelled). -/
def writeBinaryValue (v : Value) (typeStr : String) : Except String (List Nat) :=
  match v with
  | .vStr str => writeBinaryString str
  | .vBytes bs =>
    if typeStr = "byte" then .ok bs
    else .error "cast_to_roff on bytes not modelled"
  | .vBool b =>
    if typeStr = "bool" then .ok [if b then 1 else 0]
    else .error "cast_to_roff mismatch not modelled"
  | .vInt n =>
    if typeStr = "int" then int32Bytes n
    else .error "cast_to_roff mismatch not modelled"
  | .vArr _ => .error "cast_to_roff on list not modelled"

/-- Lift an all-or-nothing write into the (bytes written, error) shape. -/
def wtryB (x : Except String (List Nat)) : List Nat × Option String :=
  match x with
  | .ok bs => (bs, none)
  | .error m => ([], some m)

/-- Sequence two writes: the second happens only if the first succeeded; the
bytes already written stay written when the second fails. -/
def wseqB (a b : List Nat × Option String) : List Nat × Option String :=
  match a.2 with
  | none => (a.1 ++ b.1, b.2)
  | some m => (a.1, some m)

/-- The element loop of write_binary_tagkey for a generic iterable: each
element after the first must infer to the same roff type.  On a mismatch the
source builds the RoffWriteError message with an f-string that interpolates
type_string(value) on the WHOLE iterable; a list has no dtype attribute, so
that call raises ValueError (could not find suitable roff type) before the
RoffWriteError is ever constructed, and the ValueError escapes instead.
Either way everything before the mismatching element is already written. -/
def writeBinArrayElems (typeStr : String) : List Value → List Nat × Option String
  | [] => ([], none)
  | v :: rest =>
    match typeStringOpt v with
    | some t2 =>
      if typeStr ≠ t2 then
        ([], some "ValueError: could not find suitable roff type")
      else
        match writeBinaryValue v typeStr with
        | .ok bs =>
          let r := writeBinArrayElems typeStr rest
          (bs ++ r.1, r.2)
        | .error m => ([], some m)
    | none => ([], some "ValueError: could not find suitable roff type")

/-- is_array_type from writing.py on modelled values. -/
def isArrayType : Value → Bool
  | .vBytes bs => bs.length != 1
  | .vArr _ => true
  | _ => false

/-- write_binary_tagkey from writing.py (the numpy array branch is not
modelled; list and bytes inputs cover the generic branches). -/
def writeBinaryTagkey (tagkeyName : String) (v : Value) : List Nat × Option String :=
  match v with
  | .vBytes bs =>
    if 1 < bs.length then
      wseqB (strToBytes "array" ++ [0] ++ strToBytes "byte" ++ [0], none)
        (wseqB (wtryB (writeBinaryString tagkeyName))
          (wseqB (wtryB (natTo4LE bs.length)) (bs, none)))
    else if bs.length = 1 then
      wseqB (strToBytes "byte" ++ [0], none)
        (wseqB (wtryB (writeBinaryString tagkeyName)) (bs, none))
    else
      wseqB (strToBytes "array" ++ [0] ++ strToBytes "byte" ++ [0], none)
        (wseqB (wtryB (writeBinaryString tagkeyName)) ([0, 0, 0, 0], none))
  | .vArr l =>
    match l with
    | [] =>
      wseqB (strToBytes "array" ++ [0] ++ strToBytes "byte" ++ [0], none)
        (wseqB (wtryB (writeBinaryString tagkeyName)) ([0, 0, 0, 0], none))
    | first :: restl =>
      match typeStringOpt first with
      | none => ([], some "ValueError: could not find suitable roff type")
      | some t0 =>
        wseqB (strToBytes "array" ++ [0] ++ strToBytes t0 ++ [0], none)
          (wseqB (wtryB (writeBinaryString tagkeyName))
            (wseqB (wtryB (natTo4LE l.length))
              (wseqB (wtryB (writeBinaryValue first t0))
                (writeBinArrayElems t0 restl))))
  | _ =>
    match typeStringOpt v with
    | some t0 =>
      wseqB (strToBytes t0 ++ [0], none)
        (wseqB (wtryB (writeBinaryString tagkeyName)) (wtryB (writeBinaryValue v t0)))
    | none => ([], some "ValueError: could not find suitable roff type")

/-- The tagkey loop of write_binary_roff. -/
def writeBinaryTagkeys : List (String × Value) → List Nat × Option String
  | [] => ([], none)
  | (k, v) :: rest => wseqB (writeBinaryTagkey k v) (writeBinaryTagkeys rest)

/-- The tag loop of write_binary_roff. -/
def writeBinaryTags : List Tag → List Nat × Option String
  | [] => ([], none)
  | (name, kvs) :: rest =>
    wseqB (strToBytes "tag" ++ [0], none)
      (wseqB (wtryB (writeBinaryString name))
        (wseqB (writeBinaryTagkeys kvs)
          (wseqB (strToBytes "endtag" ++ [0], none) (writeBinaryTags rest))))

/-- write_binary_roff from writing.py; `ver` is the roffio version string
interpolated into the creator comment. -/
def writeBinaryRoff (ver : String) (values : List Tag) : List Nat × Option String :=
  wseqB (strToBytes "roff-bin" ++ [0] ++ strToBytes "#ROFF file#" ++ [0], none)
    (wseqB (wtryB (asciiEncode ("#Creator: roffio, version " ++ ver ++ "#")))
      (wseqB ([0], none) (writeBinaryTags values)))

/-- check_valid_ascii_name from writing.py. -/
def checkValidAsciiName (name : String) : Option String :=
  if name.length = 0 then
    some "RoffWriteError: Names in roff ascii format cannot have 0 length."
  else if name.data.any pyIsSpace then
    some "RoffWriteError: Names in roff ascii format cannot contain space."
  else if name.data.any (fun c => c = '#') then
    some "RoffWriteError: Names in roff ascii format cannot contain hash."
  else none

/-- write_ascii_value from writing.py (Python floats not modelled; the
str(value) fallback for a bool under a non-bool type string prints
True/False as Python does). -/
def writeAsciiValue (v : Value) (typeStr : String) : Except String String :=
  match v with
  | .vStr str => .ok ("\"" ++ str ++ "\"")
  | .vBytes bs =>
    if typeStr = "byte" then
      if bs.length ≠ 1 then
        .error "RoffWriteError: Bytes in roff format must have length 1"
      else .ok (natDecString (fromBytesLE bs))
    else .error "str(bytes) repr not modelled"
  | .vBool b =>
    if typeStr = "bool" then .ok (if b then "1" else "0")
    else .ok (if b then "True" else "False")
  | .vInt n => .ok (intDecString n)
  | .vArr _ => .error "str(list) repr not modelled"

/-- Lift and sequence for the text writer. -/
def wtryA (x : Except String String) : String × Option String :=
  match x with
  | .ok str => (str, none)
  | .error m => ("", some m)

/-- Sequence two text writes, keeping output already written on failure. -/
def wseqA (a b : String × Option String) : String × Option String :=
  match a.2 with
  | none => (a.1 ++ b.1, b.2)
  | some m => (a.1, some m)

/-- True for bytes values (the writer forces element type "byte" and skips
the homogeneity check when the array value is a bytes object). -/
def isBytesValue : Value → Bool
  | .vBytes _ => true
  | _ => false

/-- The element loop of write_ascii_tagkey. -/
def writeAsciiArrayElems (typeStr : String) (isBytes : Bool) :
    List Value → String × Option String
  | [] => ("", none)
  | v :: rest =>
    match typeStringOpt v with
    | some t2 =>
      if typeStr ≠ t2 ∧ ¬ isBytes then
        ("", some "RoffWriteError: Roff only allows homogenous arrays")
      else
        match writeAsciiValue v typeStr with
        | .ok str =>
          let r := writeAsciiArrayElems typeStr isBytes rest
          (str ++ "\n" ++ r.1, r.2)
        | .error m => ("", some m)
    | none => ("", some "ValueError: could not find suitable roff type")

/-- The elements Python iteration yields for an array-like value: the list
elements, or the int values of a bytes object. -/
def arrayElems : Value → List Value
  | .vArr l => l
  | .vBytes bs => bs.map (fun b => Value.vInt b)
  | _ => []

/-- write_ascii_tagkey from writing.py: the tagkey name is validated before
any output for the key. -/
def writeAsciiTagkey (tagkeyName : String) (v : Value) : String × Option String :=
  match checkValidAsciiName tagkeyName with
  | some m => ("", some m)
  | none =>
    if isArrayType v then
      match arrayElems v with
      | [] => ("array byte " ++ tagkeyName ++ " 0\n", none)
      | first :: restl =>
        match typeStringOpt first with
        | none => ("", some "ValueError: could not find suitable roff type")
        | some t0 =>
          let typStr := if isBytesValue v then "byte" else t0
          wseqA ("array " ++ typStr ++ " " ++ tagkeyName ++ " " ++
                   natDecString (arrayElems v).length ++ "\n", none)
            (wseqA (wtryA (writeAsciiValue first typStr))
              (wseqA ("\n", none) (writeAsciiArrayElems typStr (isBytesValue v) restl)))
    else
      match typeStringOpt v with
      | some t0 =>
        wseqA (t0 ++ " " ++ tagkeyName ++ " ", none)
          (wseqA (wtryA (writeAsciiValue v t0)) ("\n", none))
      | none => ("", some "ValueError: could not find suitable roff type")

/-- The tagkey loop of write_ascii_roff. -/
def writeAsciiTagkeys : List (String × Value) → String × Option String
  | [] => ("", none)
  | (k, v) :: rest => wseqA (writeAsciiTagkey k v) (writeAsciiTagkeys rest)

/-- The tag loop of write_ascii_roff: the line `tag <name>` is written to the
stream before check_valid_ascii_name runs on the tag name (this order is the
source's). -/
def writeAsciiTags : List Tag → String × Option String
  | [] => ("", none)
  | (name, kvs) :: rest =>
    wseqA ("tag " ++ name ++ "\n", none)
      (match checkValidAsciiName name with
       | some m => ("", some m)
       | none =>
         wseqA (writeAsciiTagkeys kvs)
           (wseqA ("endtag\n", none) (writeAsciiTags rest)))

/-- write_ascii_roff from writing.py. -/
def writeAsciiRoff (ver : String) (values : List Tag) : String × Option String :=
  wseqA ("roff-asc\n#ROFF file#\n#Creator: roffio, version " ++ ver ++ "#\n", none)
    (writeAsciiTags values)

/-- The metadata dictionaries write() synthesizes; `date` stands for the
datetime.now() creation date string. -/
structure Metadata where
  filedata : List (String × Value)
  version : List (String × Value)
deriving DecidableEq

/-- roff_metadata from writing.py. -/
def roffMetadata (date : String) : Metadata :=
  ⟨[("byteswaptest", .vInt 1), ("creationDate", .vStr date)],
   [("major", .vInt 2), ("minor", .vInt 0)]⟩

/-- metadata_values[k].update(v) for one caller tag. -/
def updateMeta (md : Metadata) (k : String) (kvs : List (String × Value)) : Metadata :=
  if k = "filedata" then
    ⟨kvs.foldl (fun d kv => dictInsert d kv.1 kv.2) md.filedata, md.version⟩
  else if k = "version" then
    ⟨md.filedata, kvs.foldl (fun d kv => dictInsert d kv.1 kv.2) md.version⟩
  else md

/-- The merge loop of write(). -/
def mergeMeta (date : String) (values : List Tag) : Metadata :=
  values.foldl (fun md t => updateMeta md t.1 t.2) (roffMetadata date)

/-- The validation and list assembly of write() from writing.py, shared by
both formats: merge caller-supplied filedata/version fields, validate the
version and byteswaptest fields, drop caller filedata/version/eof tags from
the body, and append the canonical eof tag.  All validation happens before
any byte is written. -/
def writeChecks (date : String) (values : List Tag) : Except String (List Tag) :=
  let md := mergeMeta date values
  let rest := values.filter
    (fun t => t.1 != "filedata" && t.1 != "version" && t.1 != "eof")
  if !(((lookupD md.version "major").getD (.vInt 0)).pyEqInt 2) ||
     !(((lookupD md.version "minor").getD (.vInt 1)).pyEqInt 0) then
    .error "ValueError: Cannot change roff file version in values given to roffio.write!"
  else if !(md.version.all (fun kv => kv.1 == "major" || kv.1 == "minor")) then
    .error "ValueError: No additional fields in the version tag is permitted"
  else if !(((lookupD md.filedata "byteswaptest").getD (.vInt 0)).pyEqInt 1) then
    .error "ValueError: It is not possible to set the byteswaptest value in roffio.write"
  else
    .ok ([("filedata", md.filedata), ("version", md.version)] ++ rest ++ [("eof", [])])

/-- write(f, values, Format.BINARY) from writing.py: validation, then the
binary serialization.  On a validation error nothing has been written. -/
def writeBin (date ver : String) (values : List Tag) : List Nat × Option String :=
  match writeChecks date values with
  | .ok vlist => writeBinaryRoff ver vlist
  | .error m => ([], some m)

/-- write(f, values, Format.ASCII) from writing.py. -/
def writeAsc (date ver : String) (values : List Tag) : String × Option String :=
  match writeChecks date values with
  | .ok vlist => writeAsciiRoff ver vlist
  | .error m => ("", some m)

/-- The stream holds the run `a` at position `p`. -/
def SAt (s : List α) (p : Nat) (a : List α) : Prop :=
  ∃ rest, s.drop p = a ++ rest

theorem SAt.mono {s : List α} {p : Nat} {a b : List α}
    (h : SAt s p (a ++ b)) : SAt s p a := by
  obtain ⟨rest, hr⟩ := h
  exact ⟨b ++ rest, by simp [hr]⟩

theorem SAt.shift {s : List α} {p : Nat} {a b : List α}
    (h : SAt s p (a ++ b)) : SAt s (p + a.length) b := by
  obtain ⟨rest, hr⟩ := h
  refine ⟨rest, ?_⟩
  have : s.drop (p + a.length) = (s.drop p).drop a.length := by
    rw [List.drop_drop, Nat.add_comm]
  rw [this, hr, List.append_assoc, List.drop_left]

theorem SAt.cons {s : List α} {p : Nat} {x : α} {xs : List α}
    (h : SAt s p (x :: xs)) :
    ∃ hp : p < s.length, s[p] = x ∧ SAt s (p + 1) xs := by
  obtain ⟨rest, hr⟩ := h
  have hp : p < s.length := by
    by_contra hnp
    rw [List.drop_eq_nil_of_le (Nat.le_of_not_lt hnp)] at hr
    exact absurd hr.symm (by simp)
  rw [List.drop_eq_getElem_cons hp] at hr
  simp only [List.cons_append, List.cons.injEq] at hr
  exact ⟨hp, hr.1, ⟨rest, hr.2⟩⟩

theorem sread_of_SAt {s : List α} {p : Nat} {a : List α}
    (h : SAt s p a) {n : Nat} (hn : n ≤ a.length) :
    sread s p n = (a.take n, p + n) := by
  obtain ⟨rest, hr⟩ := h
  have h0 : n - a.length = 0 := Nat.sub_eq_zero_of_le hn
  have htake : (s.drop p).take n = a.take n := by
    rw [hr, List.take_append_eq_append_take, h0]
    simp
  have hlen : (a.take n).length = n := by
    rw [List.length_take]
    omega
  show ((s.drop p).take n, p + ((s.drop p).take n).length) = (a.take n, p + n)
  rw [htake, hlen]

theorem sread_full_of_SAt {s : List α} {p : Nat} {a : List α}
    (h : SAt s p a) : sread s p a.length = (a, p + a.length) := by
  have := sread_of_SAt h (Nat.le_refl a.length)
  simpa using this

theorem sread_at_end {s : List α} {p : Nat} (h : s.drop p = []) (n : Nat) :
    sread s p n = ([], p) := by
  simp [sread, h]

theorem scanUntil_spec [DecidableEq α] {s : List α} {t : α} {c : List α}
    (hne : ∀ x ∈ c, x ≠ t) : ∀ {p : Nat}, SAt s p (c ++ [t]) →
    scanUntil s t p = some (p + c.length + 1) := by
  induction c with
  | nil =>
    intro p h
    obtain ⟨hp, hg, _⟩ := SAt.cons (by simpa using h)
    rw [scanUntil_unfold, dif_pos hp, if_pos hg]
    simp
  | cons x xs ih =>
    intro p h
    obtain ⟨hp, hg, hrest⟩ := SAt.cons (show SAt s p (x :: (xs ++ [t])) by simpa using h)
    have hx : ¬ s[p] = t := by rw [hg]; exact hne x (by simp)
    rw [scanUntil_unfold, dif_pos hp, if_neg hx, ih (fun y hy => hne y (by simp [hy])) hrest]
    congr 1
    simp
    omega

theorem scanUntil_none [DecidableEq α] {s : List α} {t : α} {c : List α}
    (hne : ∀ x ∈ c, x ≠ t) : ∀ {p : Nat}, s.drop p = c →
    scanUntil s t p = none := by
  induction c with
  | nil =>
    intro p h
    have hnp : ¬ p < s.length := by
      intro hp
      rw [List.drop_eq_getElem_cons hp] at h
      simp at h
      omega
    rw [scanUntil_unfold, dif_neg hnp]
  | cons x xs ih =>
    intro p h
    have hsat : SAt s p (x :: xs) := ⟨[], by simp [h]⟩
    obtain ⟨hp, hg, _⟩ := hsat.cons
    have hx : ¬ s[p] = t := by rw [hg]; exact hne x (by simp)
    have htail : s.drop (p + 1) = xs := by
      rw [List.drop_eq_getElem_cons hp] at h
      simpa using congrArg List.tail h
    rw [scanUntil_unfold, dif_pos hp, if_neg hx,
      ih (fun y hy => hne y (by simp [hy])) htail]

theorem bbTokenizeString_spec {s : List Nat} {c : List Nat} {p : Nat}
    (hne : ∀ x ∈ c, x ≠ 0) (h : SAt s p (c ++ [0])) (kind : TokenKind) :
    bbTokenizeString s kind p =
      ⟨[⟨kind, p, p + c.length⟩], .ok (p + c.length + 1)⟩ := by
  rw [bbTokenizeString, scanUntil_spec hne h]
  simp

/-- The expected token list for a binary char array: one STRING_LITERAL per
element, each spanning its content. -/
def charTokens (p : Nat) : List (List Nat) → List Token
  | [] => []
  | c :: rest => ⟨.stringLiteral, p, p + c.length⟩ :: charTokens (p + c.length + 1) rest

/-- The encoded bytes of a run of zero-terminated strings. -/
def strsBytes (strs : List (List Nat)) : List Nat :=
  strs.foldr (fun c acc => c ++ 0 :: acc) []

theorem bbCharArrayData_spec {s : List Nat} {strs : List (List Nat)}
    (hne : ∀ c ∈ strs, ∀ x ∈ c, x ≠ 0) : ∀ {p : Nat}, SAt s p (strsBytes strs) →
    bbCharArrayData s strs.length p =
      ⟨charTokens p strs, .ok (p + (strsBytes strs).length)⟩ := by
  induction strs with
  | nil => intro p _; simp [bbCharArrayData, charTokens, strsBytes]
  | cons c rest ih =>
    intro p h
    have hsplit : strsBytes (c :: rest) = (c ++ [0]) ++ strsBytes rest := by
      simp [strsBytes]
    rw [hsplit] at h
    have hs := bbTokenizeString_spec (hne c (by simp)) h.mono .stringLiteral
    have hshift := h.shift
    have hlen : (c ++ [0]).length = c.length + 1 := by simp
    rw [hlen] at hshift
    have ihr := ih (fun d hd => hne d (by simp [hd])) hshift
    have hpos : p + (c.length + 1) = p + c.length + 1 := by omega
    rw [hpos] at ihr
    rw [List.length_cons, hsplit]
    simp only [bbCharArrayData, hs, ihr, charTokens, TokOut.mk.injEq,
      TokRes.ok.injEq, List.cons.injEq, List.length_append, List.length_cons,
      List.length_nil]
    exact ⟨by simp, by omega⟩

/-- Claim C7: for every stream, endianness and count token,
tokenize_array_data with a CHAR element type and a stream holding `n`
zero-terminated strings (where `n` is the count decoded from the count
token) yields exactly `n` STRING_LITERAL tokens covering them; with any
other fixed-width element type it yields exactly one ARRAYBLOB token
spanning `n * tokenlen(type)` bytes without reading the stream, where
tokenlen is 1 for bool and byte, 4 for int and float and 8 for double. -/
theorem tokenizeArrayData_spec (s : List Nat) (e : Endianess) (numTok : Token)
    (p : Nat) :
    (∀ ty w, ty ≠ TokenKind.char → tokenlenOpt ty = some w →
      bbTokenizeArrayData s e ty numTok p =
        ⟨[⟨.arrayblob, p,
            p + w * fromBytes e (extract s numTok.start numTok.stop)⟩],
          .ok (p + w * fromBytes e (extract s numTok.start numTok.stop))⟩) ∧
    (∀ strs : List (List Nat),
      strs.length = fromBytes e (extract s numTok.start numTok.stop) →
      (∀ c ∈ strs, ∀ x ∈ c, x ≠ 0) → SAt s p (strsBytes strs) →
      bbTokenizeArrayData s e .char numTok p =
        ⟨charTokens p strs, .ok (p + (strsBytes strs).length)⟩) ∧
    tokenlenOpt .bool = some 1 ∧ tokenlenOpt .byte = some 1 ∧
    tokenlenOpt .int = some 4 ∧ tokenlenOpt .float = some 4 ∧
    tokenlenOpt .double = some 8 := by
  refine ⟨?_, ?_, rfl, rfl, rfl, rfl, rfl⟩
  · intro ty w hty hw
    simp [bbTokenizeArrayData, hty, hw]
  · intro strs hlen hne hsat
    rw [bbTokenizeArrayData]
    simp only [if_pos rfl]
    rw [← hlen]
    exact bbCharArrayData_spec hne hsat

/-- Witness for tokenizeArrayData_spec: a concrete stream holding an int
count token (value 2) and two zero-terminated strings "ab", "c"; the int
branch spans 8 bytes, the char branch yields the two string tokens. -/
theorem tokenizeArrayData_spec_witness :
    (bbTokenizeArrayData [2, 0, 0, 0, 97, 98, 0, 99, 0] .little .int ⟨.binaryNumericValue, 0, 4⟩ 4 =
      ⟨[⟨.arrayblob, 4, 12⟩], .ok 12⟩) ∧
    (bbTokenizeArrayData [2, 0, 0, 0, 97, 98, 0, 99, 0] .little .char ⟨.binaryNumericValue, 0, 4⟩ 4 =
      ⟨[⟨.stringLiteral, 4, 6⟩, ⟨.stringLiteral, 7, 8⟩], .ok 9⟩) := by
  constructor
  · have h := (tokenizeArrayData_spec [2, 0, 0, 0, 97, 98, 0, 99, 0] .little
      ⟨.binaryNumericValue, 0, 4⟩ 4).1 .int 4 (by decide) (by decide)
    rw [h]
    decide
  · have h := (tokenizeArrayData_spec [2, 0, 0, 0, 97, 98, 0, 99, 0] .little
      ⟨.binaryNumericValue, 0, 4⟩ 4).2.1 [[97, 98], [99]] (by decide) (by decide)
      ⟨[], by decide⟩
    rw [h]
    decide

theorem fromBytes_single (e : Endianess) (b : Nat) : fromBytes e [b] = b := by
  cases e <;> simp [fromBytes, fromBytesLE]

/-- Claim C9 (amended): parse_boolean_value first requires the value token to
span exactly one byte (binary) or one character (ascii) and raises
RoffSyntaxError otherwise, even when the longer span would decode to 0 or 1;
a single-byte 0/1 (binary) or single-character "0"/"1" (ascii) yields
False/True; any other single-byte or single-digit value raises
RoffTypeError. -/
theorem parse_boolean_amended :
    (∀ (e : Endianess) (s : List Nat) (t : Token) (rest : List Token),
      (extract s t.start t.stop = [0] →
        parseBooleanB e s (t :: rest) = .ok (.vBool false, rest)) ∧
      (extract s t.start t.stop = [1] →
        parseBooleanB e s (t :: rest) = .ok (.vBool true, rest)) ∧
      (∀ b, extract s t.start t.stop = [b] → b ≠ 0 → b ≠ 1 →
        parseBooleanB e s (t :: rest) =
          .error (.typeErr "boolean values must be either 1 or 0")) ∧
      ((extract s t.start t.stop).length ≠ 1 →
        parseBooleanB e s (t :: rest) =
          .error (.syntaxErr "too long boolean value"))) ∧
    (∀ (s : List Char) (t : Token) (rest : List Token),
      (extract s t.start t.stop = ['0'] →
        parseBooleanT s (t :: rest) = .ok (.vBool false, rest)) ∧
      (extract s t.start t.stop = ['1'] →
        parseBooleanT s (t :: rest) = .ok (.vBool true, rest)) ∧
      (∀ n : Int, (extract s t.start t.stop).length = 1 →
        pyIntOfString ⟨extract s t.start t.stop⟩ = some n → n ≠ 0 → n ≠ 1 →
        parseBooleanT s (t :: rest) =
          .error (.typeErr "boolean values must be either 1 or 0")) ∧
      ((extract s t.start t.stop).length ≠ 1 →
        parseBooleanT s (t :: rest) =
          .error (.syntaxErr "too long boolean value"))) := by
  constructor
  · intro e s t rest
    refine ⟨?_, ?_, ?_, ?_⟩
    · intro h
      simp [parseBooleanB, h, fromBytes_single]
    · intro h
      simp [parseBooleanB, h, fromBytes_single]
    · intro b h hb0 hb1
      simp [parseBooleanB, h, fromBytes_single, hb0, hb1]
    · intro h
      simp [parseBooleanB, h]
  · intro s t rest
    refine ⟨?_, ?_, ?_, ?_⟩
    · intro h
      simp only [parseBooleanT, h]
      rw [if_neg (by decide), show pyIntOfString ⟨['0']⟩ = some 0 from by decide]
      simp
    · intro h
      simp only [parseBooleanT, h]
      rw [if_neg (by decide), show pyIntOfString ⟨['1']⟩ = some 1 from by decide]
      simp
    · intro n hlen hn hn0 hn1
      simp only [parseBooleanT, hlen]
      rw [if_neg (by omega), hn]
      simp [hn0, hn1]
    · intro h
      simp [parseBooleanT, h]

/-- Witness for parse_boolean_amended (at the binary clauses with a concrete
one-byte stream 1 and a concrete text stream "7"). -/
theorem parse_boolean_amended_witness :
    parseBooleanB .little [1] [⟨.binaryNumericValue, 0, 1⟩] =
      .ok (.vBool true, []) ∧
    parseBooleanT (String.data "7") [⟨.numericValue, 0, 1⟩] =
      .error (.typeErr "boolean values must be either 1 or 0") := by
  constructor
  · exact (parse_boolean_amended.1 .little [1] ⟨.binaryNumericValue, 0, 1⟩ []).2.1
      (by decide)
  · exact (parse_boolean_amended.2 (String.data "7") ⟨.numericValue, 0, 1⟩ []).2.2.1
      7 (by decide) (by decide) (by decide) (by decide)

/-- Claim C9 (counterexample): the ascii value token "00" decodes textually
to 0, yet parse_boolean_value raises RoffSyntaxError instead of yielding
False (and in particular not a type error). -/
theorem parse_boolean_counterexample :
    pyIntOfString ⟨extract (String.data "00") 0 2⟩ = some 0 ∧
    parseBooleanT (String.data "00") [⟨.numericValue, 0, 2⟩] =
      .error (.syntaxErr "too long boolean value") ∧
    parseBooleanT (String.data "00") [⟨.numericValue, 0, 2⟩] ≠
      .ok (.vBool false, []) := by
  refine ⟨by decide, by decide, by decide⟩

theorem lookupD_cons (kv : String × Value) (d : List (String × Value)) (k : String) :
    lookupD (kv :: d) k = if kv.1 == k then some kv.2 else lookupD d k := by
  simp only [lookupD, List.find?]
  by_cases h : kv.1 == k <;> simp [h]

theorem lookupD_append (d e : List (String × Value)) (k : String) :
    lookupD (d ++ e) k =
      match lookupD d k with
      | some v => some v
      | none => lookupD e k := by
  induction d with
  | nil => simp [lookupD]
  | cons kv rest ih =>
    rw [List.cons_append, lookupD_cons, lookupD_cons]
    by_cases h : kv.1 == k <;> simp [h, ih]

theorem lookupD_mapReplace (d : List (String × Value)) (k k2 : String) (v : Value)
    (h : k ≠ k2) :
    lookupD (d.map (fun kv => if kv.1 == k then (k, v) else kv)) k2 =
      lookupD d k2 := by
  induction d with
  | nil => rfl
  | cons kv rest ih =>
    rw [List.map_cons, lookupD_cons, lookupD_cons]
    by_cases hk : kv.1 == k
    · rw [if_pos hk]
      have hkv : kv.1 = k := by simpa using hk
      rw [if_neg (by simpa using h), if_neg (by rw [hkv]; simpa using h), ih]
    · rw [if_neg hk]
      by_cases h2 : kv.1 == k2
      · rw [if_pos h2, if_pos h2]
      · rw [if_neg h2, if_neg h2, ih]

theorem lookupD_mapReplace_self (d : List (String × Value)) (k : String) (v : Value)
    (h : d.any (fun kv => kv.1 == k) = true) :
    lookupD (d.map (fun kv => if kv.1 == k then (k, v) else kv)) k = some v := by
  induction d with
  | nil => simp at h
  | cons kv rest ih =>
    rw [List.map_cons, lookupD_cons]
    by_cases hk : kv.1 == k
    · rw [if_pos hk]
      simp
    · rw [if_neg hk, if_neg hk]
      apply ih
      simpa [hk] using h

theorem lookupD_dictInsert_self (d : List (String × Value)) (k : String) (v : Value) :
    lookupD (dictInsert d k v) k = some v := by
  rw [dictInsert]
  by_cases ha : d.any (fun kv => kv.1 == k)
  · rw [if_pos ha]
    exact lookupD_mapReplace_self d k v ha
  · rw [if_neg ha, lookupD_append]
    have hnone : lookupD d k = none := by
      have hf : d.find? (fun kv => kv.1 == k) = none := by
        rw [List.find?_eq_none]
        intro x hx hpx
        exact ha (List.any_eq_true.mpr ⟨x, hx, hpx⟩)
      simp [lookupD, hf]
    rw [hnone, lookupD_cons]
    simp

theorem lookupD_dictInsert_ne (d : List (String × Value)) (k k2 : String)
    (v : Value) (h : k ≠ k2) : lookupD (dictInsert d k v) k2 = lookupD d k2 := by
  rw [dictInsert]
  by_cases ha : d.any (fun kv => kv.1 == k)
  · rw [if_pos ha]
    exact lookupD_mapReplace d k k2 v h
  · rw [if_neg ha, lookupD_append]
    cases hd : lookupD d k2 with
    | some w => rfl
    | none =>
      rw [lookupD_cons]
      simp only [if_neg (show ¬ (k == k2) = true from by simpa using h)]
      rfl

/-- The value of the last occurrence of key k (what dict(list) ends up
holding for k). -/
def lookupLast : List (String × Value) → String → Option Value
  | [], _ => none
  | kv :: rest, k =>
    match lookupLast rest k with
    | some v => some v
    | none => if kv.1 == k then some kv.2 else none

theorem lookupD_foldl_dictInsert (kvs : List (String × Value)) (k : String) :
    ∀ d0 : List (String × Value),
    lookupD (kvs.foldl (fun d kv => dictInsert d kv.1 kv.2) d0) k =
      match lookupLast kvs k with
      | some v => some v
      | none => lookupD d0 k := by
  induction kvs with
  | nil => intro d0; rfl
  | cons kv rest ih =>
    intro d0
    rw [List.foldl_cons, ih (dictInsert d0 kv.1 kv.2)]
    cases hl : lookupLast rest k with
    | some w => simp [lookupLast, hl]
    | none =>
      by_cases hk : kv.1 == k
      · have hkk : kv.1 = k := by simpa using hk
        simp only [lookupLast, hl, hk]
        rw [hkk, lookupD_dictInsert_self]
        simp
      · have hkk : kv.1 ≠ k := by simpa using hk
        simp only [lookupLast, hl, hk]
        rw [lookupD_dictInsert_ne d0 kv.1 k kv.2 hkk]
        simp

theorem lookupD_dictOfList (kvs : List (String × Value)) (k : String) :
    lookupD (dictOfList kvs) k = lookupLast kvs k := by
  rw [dictOfList, lookupD_foldl_dictInsert kvs k []]
  cases lookupLast kvs k <;> rfl

theorem lookupLast_none_iff (kvs : List (String × Value)) (k : String) :
    lookupLast kvs k = none ↔ lookupD kvs k = none := by
  induction kvs with
  | nil => simp [lookupLast, lookupD]
  | cons kv rest ih =>
    rw [lookupD_cons]
    by_cases hk : kv.1 == k
    · simp only [lookupLast, hk, if_pos, if_true]
      constructor
      · intro h
        cases hl : lookupLast rest k <;> simp [hl] at h
      · intro h
        simp at h
    · simp only [lookupLast, hk, if_neg, if_false]
      cases hl : lookupLast rest k with
      | some w => simp [hl, ← ih]
      | none => simp [hl, ← ih]

theorem checkEndianess_nonFiledata (st : HState) (tag : Tag)
    (h : ¬ tag.1 = "filedata") :
    checkEndianess st tag = .ok (tag,
      if !st.foundByteswaptest && !st.hasWarned && st.isBinaryFile then
        { st with hasWarned := true } else st) := by
  rw [checkEndianess, if_neg h]

theorem runHandler_found_state (st : HState) (h : st.foundByteswaptest = true) :
    ∀ ts : List Tag, (runHandler st ts).2.1 = st := by
  intro ts
  induction ts with
  | nil => rfl
  | cons t rest ih =>
    by_cases ht : t.1 = "filedata"
    · rw [runHandler, checkEndianess, if_pos ht, if_pos h]
    · rw [runHandler, checkEndianess_nonFiledata st t ht]
      simp only [h, Bool.not_true, Bool.false_and, Bool.false_eq_true, if_false]
      exact ih

theorem runHandler_found_dup (st : HState) (h : st.foundByteswaptest = true) :
    ∀ mid : List Tag, (∀ t ∈ mid, ¬ t.1 = "filedata") →
    ∀ (kvs : List (String × Value)) (post : List Tag),
    runHandler st (mid ++ ("filedata", kvs) :: post) =
      (mid, st, some "Roff file has duplicate filedata tags.") := by
  intro mid
  induction mid with
  | nil =>
    intro _ kvs post
    rw [List.nil_append, runHandler, checkEndianess, if_pos rfl, if_pos h]
  | cons t rest ih =>
    intro hmid kvs post
    rw [List.cons_append, runHandler,
      checkEndianess_nonFiledata st t (hmid t (by simp))]
    simp only [h, Bool.not_true, Bool.false_and, Bool.false_eq_true, if_false]
    rw [ih (fun u hu => hmid u (by simp [hu])) kvs post]

theorem runHandler_found_err_iff (st : HState) (h : st.foundByteswaptest = true) :
    ∀ ts : List Tag,
    ((runHandler st ts).2.2 ≠ none ↔ ∃ kvs, ("filedata", kvs) ∈ ts) := by
  intro ts
  induction ts with
  | nil => simp [runHandler]
  | cons t rest ih =>
    by_cases ht : t.1 = "filedata"
    · rw [runHandler, checkEndianess, if_pos ht, if_pos h]
      simp only [ne_eq, reduceCtorEq, not_false_eq_true, true_iff]
      refine ⟨t.2, ?_⟩
      have : ("filedata", t.2) = t := by
        rw [← ht]
      rw [this]
      simp
    · rw [runHandler, checkEndianess_nonFiledata st t ht]
      simp only [h, Bool.not_true, Bool.false_and, Bool.false_eq_true, if_false]
      constructor
      · intro he
        obtain ⟨kvs, hm⟩ := ih.mp he
        exact ⟨kvs, by simp [hm]⟩
      · intro he
        obtain ⟨kvs, hm⟩ := he
        rcases List.mem_cons.mp hm with heq | hmem
        · exact absurd (congrArg Prod.fst heq.symm) ht
        · exact ih.mpr ⟨kvs, hmem⟩

theorem runHandler_prefix (pre : List Tag) :
    ∀ st : HState, st.foundByteswaptest = false →
    (∀ t ∈ pre, ¬ t.1 = "filedata") → ∀ ts : List Tag,
    ∃ w : Bool, runHandler st (pre ++ ts) =
      (pre ++ (runHandler { st with hasWarned := w } ts).1,
       (runHandler { st with hasWarned := w } ts).2) := by
  induction pre with
  | nil =>
    intro st _ _ ts
    refine ⟨st.hasWarned, ?_⟩
    cases st
    rfl
  | cons t rest ih =>
    intro st hf hpre ts
    have hstep := checkEndianess_nonFiledata st t (hpre t (by simp))
    by_cases hc : (!st.foundByteswaptest && !st.hasWarned && st.isBinaryFile) = true
    · obtain ⟨w, hw⟩ := ih { st with hasWarned := true } (by simp [hf])
        (fun u hu => hpre u (by simp [hu])) ts
      refine ⟨w, ?_⟩
      simp only [List.cons_append, runHandler, hstep, if_pos hc, List.append_eq, hw]
    · obtain ⟨w, hw⟩ := ih st hf (fun u hu => hpre u (by simp [hu])) ts
      refine ⟨w, ?_⟩
      simp only [List.cons_append, runHandler, hstep, if_neg hc, List.append_eq, hw]

/-- Claim C2: when the first filedata tag carries a byteswaptest key whose
value is not 1 (under Python equality), the endianness handler flips the
endianness of both the parser and the tokenizer exactly once over the whole
iteration (swap counters end at exactly 1) and yields the filedata tag with
the byteswaptest value replaced by 1, so consumers only ever see the
normalized flag. -/
theorem byteswap_normalization (isBin : Bool) (pre post : List Tag)
    (kvs : List (String × Value)) (v : Value)
    (hpre : ∀ t ∈ pre, ¬ t.1 = "filedata")
    (hv : lookupD (dictOfList kvs) "byteswaptest" = some v)
    (h1 : v.pyEqInt 1 = false) :
    ∃ restOut,
      (runHandler (initHState isBin) (pre ++ ("filedata", kvs) :: post)).1 =
        pre ++ ("filedata", dictInsert (dictOfList kvs) "byteswaptest" (Value.vInt 1))
          :: restOut ∧
      lookupD (dictInsert (dictOfList kvs) "byteswaptest" (Value.vInt 1))
        "byteswaptest" = some (Value.vInt 1) ∧
      (runHandler (initHState isBin) (pre ++ ("filedata", kvs) :: post)).2.1.parserSwaps = 1 ∧
      (runHandler (initHState isBin) (pre ++ ("filedata", kvs) :: post)).2.1.tokenizerSwaps = 1 ∧
      (runHandler (initHState isBin) (pre ++ ("filedata", kvs) :: post)).2.1.parserEndianess = .big ∧
      (runHandler (initHState isBin) (pre ++ ("filedata", kvs) :: post)).2.1.tokenizerEndianess = .big := by
  obtain ⟨w, hw⟩ := runHandler_prefix pre (initHState isBin) rfl hpre
    (("filedata", kvs) :: post)
  simp only [initHState] at hw
  have hstep : checkEndianess ⟨false, w, isBin, .little, .little, 0, 0⟩
      ("filedata", kvs) =
      .ok (("filedata", dictInsert (dictOfList kvs) "byteswaptest" (Value.vInt 1)),
        ⟨true, w, isBin, .big, .big, 1, 1⟩) := by
    simp only [checkEndianess, if_pos rfl, hv, h1, Endianess.swap,
      Bool.false_eq_true, if_false]
    rfl
  have hrun : runHandler (initHState isBin) (pre ++ ("filedata", kvs) :: post) =
      (pre ++ ("filedata", dictInsert (dictOfList kvs) "byteswaptest" (Value.vInt 1))
          :: (runHandler ⟨true, w, isBin, .big, .big, 1, 1⟩ post).1,
       (runHandler ⟨true, w, isBin, .big, .big, 1, 1⟩ post).2) := by
    rw [show initHState isBin = (⟨false, false, isBin, .little, .little, 0, 0⟩ : HState)
      from rfl, hw]
    simp only [runHandler, hstep]
  have hstate : (runHandler (⟨true, w, isBin, .big, .big, 1, 1⟩ : HState) post).2.1 =
      ⟨true, w, isBin, .big, .big, 1, 1⟩ :=
    runHandler_found_state _ rfl post
  refine ⟨(runHandler ⟨true, w, isBin, .big, .big, 1, 1⟩ post).1,
    ?_, lookupD_dictInsert_self _ _ _, ?_, ?_, ?_, ?_⟩ <;>
    rw [hrun] <;> simp [hstate]

/-- Witness for byteswap_normalization at a concrete tag list. -/
theorem byteswap_normalization_witness :
    ∃ restOut,
      (runHandler (initHState true)
        ([("other", [("a", Value.vInt 5)])] ++
          ("filedata", [("byteswaptest", Value.vInt 16777216)]) ::
            [("more", [])])).1 =
        [("other", [("a", Value.vInt 5)])] ++
          ("filedata", dictInsert (dictOfList [("byteswaptest", Value.vInt 16777216)])
            "byteswaptest" (Value.vInt 1)) :: restOut ∧
      lookupD (dictInsert (dictOfList [("byteswaptest", Value.vInt 16777216)])
        "byteswaptest" (Value.vInt 1)) "byteswaptest" = some (Value.vInt 1) ∧
      (runHandler (initHState true)
        ([("other", [("a", Value.vInt 5)])] ++
          ("filedata", [("byteswaptest", Value.vInt 16777216)]) ::
            [("more", [])])).2.1.parserSwaps = 1 ∧
      (runHandler (initHState true)
        ([("other", [("a", Value.vInt 5)])] ++
          ("filedata", [("byteswaptest", Value.vInt 16777216)]) ::
            [("more", [])])).2.1.tokenizerSwaps = 1 ∧
      (runHandler (initHState true)
        ([("other", [("a", Value.vInt 5)])] ++
          ("filedata", [("byteswaptest", Value.vInt 16777216)]) ::
            [("more", [])])).2.1.parserEndianess = .big ∧
      (runHandler (initHState true)
        ([("other", [("a", Value.vInt 5)])] ++
          ("filedata", [("byteswaptest", Value.vInt 16777216)]) ::
            [("more", [])])).2.1.tokenizerEndianess = .big :=
  byteswap_normalization true [("other", [("a", Value.vInt 5)])] [("more", [])]
    [("byteswaptest", Value.vInt 16777216)] (Value.vInt 16777216)
    (by decide) (by decide) (by decide)

theorem filedata_mem_iff_filter (ts : List Tag) :
    (∃ kvs, ("filedata", kvs) ∈ ts) ↔
      1 ≤ (ts.filter (fun t => t.1 == "filedata")).length := by
  constructor
  · intro h
    obtain ⟨kvs, hm⟩ := h
    have hmem : ("filedata", kvs) ∈ ts.filter (fun t => t.1 == "filedata") :=
      List.mem_filter.mpr ⟨hm, by simp⟩
    exact List.length_pos.mpr (List.ne_nil_of_mem hmem)
  · intro h
    have hne : ts.filter (fun t => t.1 == "filedata") ≠ [] := by
      intro hnil
      rw [hnil] at h
      simp at h
    obtain ⟨t, hm⟩ := List.exists_mem_of_ne_nil _ hne
    obtain ⟨hmem, hfd⟩ := List.mem_filter.mp hm
    have ht : t.1 = "filedata" := by simpa using hfd
    refine ⟨t.2, ?_⟩
    have h2 : ("filedata", t.2) = t := by rw [← ht]
    rw [h2]
    exact hmem

/-- The error behavior of the endianness handler over a state that has not
yet seen a filedata tag: an error occurs exactly when some filedata tag
lacks a byteswaptest key or at least two filedata tags occur. -/
theorem runHandler_err_iff (ts : List Tag) :
    ∀ st : HState, st.foundByteswaptest = false →
    ((runHandler st ts).2.2 ≠ none ↔
      (∃ kvs, ("filedata", kvs) ∈ ts ∧ lookupD kvs "byteswaptest" = none) ∨
      2 ≤ (ts.filter (fun t => t.1 == "filedata")).length) := by
  induction ts with
  | nil => intro st _; simp [runHandler]
  | cons t rest ih =>
    intro st hf
    by_cases ht : t.1 = "filedata"
    · obtain ⟨tn, kvs0⟩ := t
      simp only at ht
      subst ht
      cases hbst : lookupD (dictOfList kvs0) "byteswaptest" with
      | none =>
        have hstep : checkEndianess st ("filedata", kvs0) =
            .error "Roff file tag filedata is missing byteswapttest tagkey." := by
          rw [checkEndianess, if_pos rfl, if_neg (by simp [hf])]
          simp only [hbst]
        rw [runHandler, hstep]
        simp only [ne_eq, reduceCtorEq, not_false_eq_true, true_iff]
        left
        refine ⟨kvs0, by simp, ?_⟩
        rw [← lookupLast_none_iff, ← lookupD_dictOfList]
        exact hbst
      | some v =>
        have hlk : ¬ lookupD kvs0 "byteswaptest" = none := by
          rw [← lookupLast_none_iff, ← lookupD_dictOfList, hbst]
          simp
        obtain ⟨tag1, st1, hstep, hfound1⟩ :
            ∃ (tag1 : Tag) (st1 : HState),
              checkEndianess st ("filedata", kvs0) = .ok (tag1, st1) ∧
              st1.foundByteswaptest = true := by
          rw [checkEndianess, if_pos rfl, if_neg (by simp [hf])]
          simp only [hbst]
          by_cases hpe : v.pyEqInt 1 = true
          · rw [if_pos hpe]
            exact ⟨_, _, rfl, rfl⟩
          · rw [if_neg hpe]
            exact ⟨_, _, rfl, rfl⟩
        simp only [runHandler, hstep]
        rw [runHandler_found_err_iff st1 hfound1 rest]
        have hfil : (("filedata", kvs0) :: rest).filter (fun u => u.1 == "filedata") =
            ("filedata", kvs0) :: rest.filter (fun u => u.1 == "filedata") := by
          simp [List.filter_cons]
        rw [hfil]
        constructor
        · intro hmem
          right
          have := (filedata_mem_iff_filter rest).mp hmem
          simp only [List.length_cons]
          exact Nat.succ_le_succ this
        · intro h
          rcases h with ⟨kvs, hm, hlack⟩ | hcnt
          · rcases List.mem_cons.mp hm with heq | hmem
            · exfalso
              have : kvs = kvs0 := by
                have := congrArg Prod.snd heq
                simpa using this
              rw [this] at hlack
              exact hlk hlack
            · exact ⟨kvs, hmem⟩
          · apply (filedata_mem_iff_filter rest).mpr
            simp only [List.length_cons] at hcnt
            exact Nat.lt_succ_iff.mp hcnt
    · have hstep := checkEndianess_nonFiledata st t ht
      have hfil : (t :: rest).filter (fun u => u.1 == "filedata") =
          rest.filter (fun u => u.1 == "filedata") := by
        simp [List.filter_cons, ht]
      have hiff : ∀ st1 : HState, st1.foundByteswaptest = false →
          (((runHandler st1 rest).2.2 ≠ none) ↔
            ((∃ kvs, ("filedata", kvs) ∈ t :: rest ∧ lookupD kvs "byteswaptest" = none) ∨
             2 ≤ ((t :: rest).filter (fun u => u.1 == "filedata")).length)) := by
        intro st1 hf1
        rw [ih st1 hf1, hfil]
        constructor
        · intro h
          rcases h with ⟨kvs, hm, hlack⟩ | hcnt
          · exact Or.inl ⟨kvs, by simp [hm], hlack⟩
          · exact Or.inr hcnt
        · intro h
          rcases h with ⟨kvs, hm, hlack⟩ | hcnt
          · rcases List.mem_cons.mp hm with heq | hmem
            · exact absurd (congrArg Prod.fst heq.symm) ht
            · exact Or.inl ⟨kvs, hmem, hlack⟩
          · exact Or.inr hcnt
      by_cases hc : (!st.foundByteswaptest && !st.hasWarned && st.isBinaryFile) = true
      · simp only [runHandler, hstep, if_pos hc]
        exact hiff { st with hasWarned := true } (by simp [hf])
      · simp only [runHandler, hstep, if_neg hc]
        exact hiff st hf

theorem checkEndianess_filedata_ok (st : HState) (hf : st.foundByteswaptest = false)
    (kvs : List (String × Value)) (v : Value)
    (hv : lookupD (dictOfList kvs) "byteswaptest" = some v) :
    ∃ (fd : Tag) (st1 : HState),
      checkEndianess st ("filedata", kvs) = .ok (fd, st1) ∧
      st1.foundByteswaptest = true ∧ fd.1 = "filedata" := by
  rw [checkEndianess, if_pos rfl, if_neg (by simp [hf])]
  simp only [hv]
  by_cases hpe : v.pyEqInt 1 = true
  · rw [if_pos hpe]
    exact ⟨_, _, rfl, rfl, rfl⟩
  · rw [if_neg hpe]
    exact ⟨_, _, rfl, rfl, rfl⟩

/-- Claim C3: iterating the endianness handler over a fresh state raises an
error exactly when some filedata tag lacks a byteswaptest key or at least two
filedata tags occur (even when every filedata tag carries a byteswaptest);
and in the duplicate case the error is raised on the second occurrence: the
tags strictly before the second filedata tag are all yielded and nothing from
the second filedata tag onward is. -/
theorem filedata_error_conditions (isBin : Bool) :
    (∀ ts : List Tag,
      ((runHandler (initHState isBin) ts).2.2 ≠ none ↔
        (∃ kvs, ("filedata", kvs) ∈ ts ∧ lookupD kvs "byteswaptest" = none) ∨
        2 ≤ (ts.filter (fun t => t.1 == "filedata")).length)) ∧
    (∀ (pre mid post : List Tag) (kvs1 kvs2 : List (String × Value)),
      (∀ t ∈ pre, ¬ t.1 = "filedata") →
      (∀ t ∈ mid, ¬ t.1 = "filedata") →
      ¬ lookupD (dictOfList kvs1) "byteswaptest" = none →
      ∃ fd1 : Tag, fd1.1 = "filedata" ∧
        (runHandler (initHState isBin)
          (pre ++ ("filedata", kvs1) :: (mid ++ ("filedata", kvs2) :: post))).1 =
          pre ++ fd1 :: mid ∧
        (runHandler (initHState isBin)
          (pre ++ ("filedata", kvs1) :: (mid ++ ("filedata", kvs2) :: post))).2.2 =
          some "Roff file has duplicate filedata tags.") := by
  constructor
  · intro ts
    exact runHandler_err_iff ts (initHState isBin) rfl
  · intro pre mid post kvs1 kvs2 hpre hmid hbst
    obtain ⟨w, hw⟩ := runHandler_prefix pre (initHState isBin) rfl hpre
      (("filedata", kvs1) :: (mid ++ ("filedata", kvs2) :: post))
    cases hv : lookupD (dictOfList kvs1) "byteswaptest" with
    | none => exact absurd hv hbst
    | some v =>
      obtain ⟨fd1, st1, hstep, hfound1, hfd1⟩ :=
        checkEndianess_filedata_ok { initHState isBin with hasWarned := w } rfl
          kvs1 v hv
      have hrest : runHandler { initHState isBin with hasWarned := w }
          (("filedata", kvs1) :: (mid ++ ("filedata", kvs2) :: post)) =
          (fd1 :: mid, st1, some "Roff file has duplicate filedata tags.") := by
        simp only [runHandler, hstep,
          runHandler_found_dup st1 hfound1 mid hmid kvs2 post]
      refine ⟨fd1, hfd1, ?_, ?_⟩
      · rw [hw, hrest]
      · rw [hw, hrest]

theorem filedata_error_conditions_witness :
    ∃ fd1 : Tag, fd1.1 = "filedata" ∧
      (runHandler (initHState true)
        ([] ++ ("filedata", [("byteswaptest", Value.vInt 1)]) ::
          ([] ++ ("filedata", []) :: []))).1 = [] ++ fd1 :: [] ∧
      (runHandler (initHState true)
        ([] ++ ("filedata", [("byteswaptest", Value.vInt 1)]) ::
          ([] ++ ("filedata", []) :: []))).2.2 =
        some "Roff file has duplicate filedata tags." :=
  (filedata_error_conditions true).2 [] [] [] [("byteswaptest", Value.vInt 1)] []
    (by decide) (by decide) (by decide)

theorem writeBinArrayElems_append_err (t0 t2 : String) (bad : Value)
    (more : List Value) (hv : typeStringOpt bad = some t2) (hne : ¬ t2 = t0) :
    ∀ (pre : List Value) (bs : List Nat),
    writeBinArrayElems t0 pre = (bs, none) →
    writeBinArrayElems t0 (pre ++ bad :: more) =
      (bs, some "ValueError: could not find suitable roff type") := by
  intro pre
  induction pre with
  | nil =>
    intro bs hb
    have hbs : ([] : List Nat) = bs := congrArg Prod.fst hb
    subst hbs
    rw [List.nil_append]
    simp only [writeBinArrayElems, hv]
    rw [if_pos (fun h => hne h.symm)]
  | cons u rest ih =>
    intro bs hb
    simp only [writeBinArrayElems] at hb
    cases htu : typeStringOpt u with
    | none =>
      simp only [htu] at hb
      exact absurd (congrArg Prod.snd hb) (by simp)
    | some tu =>
      simp only [htu] at hb
      by_cases heq : t0 = tu
      · rw [if_neg (by simp [heq])] at hb
        cases hwv : writeBinaryValue u t0 with
        | error m =>
          simp only [hwv] at hb
          exact absurd (congrArg Prod.snd hb) (by simp)
        | ok ubs =>
          simp only [hwv] at hb
          cases hrr : writeBinArrayElems t0 rest with
          | mk r1 r2 =>
            simp only [hrr] at hb
            have h1 : ubs ++ r1 = bs := congrArg Prod.fst hb
            have h2 : r2 = (none : Option String) := congrArg Prod.snd hb
            subst h2
            rw [List.cons_append]
            simp only [writeBinArrayElems, htu]
            rw [if_neg (by simp [heq])]
            simp only [hwv, ih r1 hrr]
            rw [h1]
      · rw [if_pos (by simp [heq])] at hb
        exact absurd (congrArg Prod.snd hb) (by simp)

theorem writeAsciiArrayElems_append_err (t0 t2 : String) (bad : Value)
    (more : List Value) (hv : typeStringOpt bad = some t2) (hne : ¬ t2 = t0) :
    ∀ (pre : List Value) (s : String),
    writeAsciiArrayElems t0 false pre = (s, none) →
    writeAsciiArrayElems t0 false (pre ++ bad :: more) =
      (s, some "RoffWriteError: Roff only allows homogenous arrays") := by
  intro pre
  induction pre with
  | nil =>
    intro s hb
    have hbs : ("" : String) = s := congrArg Prod.fst hb
    subst hbs
    rw [List.nil_append]
    simp only [writeAsciiArrayElems, hv]
    rw [if_pos ⟨fun h => hne h.symm, by simp⟩]
  | cons u rest ih =>
    intro s hb
    simp only [writeAsciiArrayElems] at hb
    cases htu : typeStringOpt u with
    | none =>
      simp only [htu] at hb
      exact absurd (congrArg Prod.snd hb) (by simp)
    | some tu =>
      simp only [htu] at hb
      by_cases heq : t0 = tu
      · rw [if_neg (fun hc => hc.1 heq)] at hb
        cases hwv : writeAsciiValue u t0 with
        | error m =>
          simp only [hwv] at hb
          exact absurd (congrArg Prod.snd hb) (by simp)
        | ok ustr =>
          simp only [hwv] at hb
          cases hrr : writeAsciiArrayElems t0 false rest with
          | mk r1 r2 =>
            simp only [hrr] at hb
            have h1 : ustr ++ "\n" ++ r1 = s := congrArg Prod.fst hb
            have h2 : r2 = (none : Option String) := congrArg Prod.snd hb
            subst h2
            rw [List.cons_append]
            simp only [writeAsciiArrayElems, htu]
            rw [if_neg (fun hc => hc.1 heq)]
            simp only [hwv, ih r1 hrr]
            rw [h1]
      · have hcond : (t0 ≠ tu ∧ ¬ (false : Bool)) := ⟨heq, by simp⟩
        rw [if_pos hcond] at hb
        exact absurd (congrArg Prod.snd hb) (by simp)

/-- Claim C4 (corrected): writing an array whose elements infer to more than
one wire type fails at the first mismatching element, but only after the
array header, the first element and every element preceding the mismatch
have already been flushed to the stream, in both the binary and the ascii
format; the output is not atomic.  The error differs by format: the ascii
writer raises the RoffWriteError about homogenous arrays, while the binary
writer never constructs that error, because its message f-string calls
type_string on the whole list, which raises ValueError (could not find
suitable roff type) first, and that ValueError escapes. -/
theorem hetero_array_error_after_flush (name t0 t2 : String) (first bad : Value)
    (pre more : List Value) :
    (∀ (nbs lbs fbs bs : List Nat),
      typeStringOpt first = some t0 →
      writeBinaryString name = .ok nbs →
      natTo4LE (first :: (pre ++ bad :: more)).length = .ok lbs →
      writeBinaryValue first t0 = .ok fbs →
      writeBinArrayElems t0 pre = (bs, none) →
      typeStringOpt bad = some t2 → ¬ t2 = t0 →
      writeBinaryTagkey name (.vArr (first :: (pre ++ bad :: more))) =
        ((strToBytes "array" ++ [0] ++ strToBytes t0 ++ [0]) ++
           (nbs ++ (lbs ++ (fbs ++ bs))),
         some "ValueError: could not find suitable roff type")) ∧
    (∀ (fstr s : String),
      typeStringOpt first = some t0 →
      checkValidAsciiName name = none →
      writeAsciiValue first t0 = .ok fstr →
      writeAsciiArrayElems t0 false pre = (s, none) →
      typeStringOpt bad = some t2 → ¬ t2 = t0 →
      writeAsciiTagkey name (.vArr (first :: (pre ++ bad :: more))) =
        (("array " ++ t0 ++ " " ++ name ++ " " ++
            natDecString (first :: (pre ++ bad :: more)).length ++ "\n") ++
           (fstr ++ ("\n" ++ s)),
         some "RoffWriteError: Roff only allows homogenous arrays")) := by
  constructor
  · intro nbs lbs fbs bs hfirst hnbs hlen hfbs hpre hbad hne
    have helems := writeBinArrayElems_append_err t0 t2 bad more hbad hne pre bs hpre
    simp only [writeBinaryTagkey, hfirst]
    rw [hnbs, hlen, hfbs, helems]
    simp only [wtryB, wseqB]
  · intro fstr s hfirst hname hfstr hpre hbad hne
    have helems := writeAsciiArrayElems_append_err t0 t2 bad more hbad hne pre s hpre
    simp only [writeAsciiTagkey, hname, isArrayType, arrayElems, isBytesValue,
      if_true, hfirst, Bool.false_eq_true, if_false]
    rw [hfstr, helems]
    simp only [wtryA, wseqA]

theorem hetero_array_atomicity_counterexample :
    ((writeBinaryTagkey "x" (.vArr [Value.vInt 1, Value.vStr "a"])).2 ≠ none ∧
     (writeBinaryTagkey "x" (.vArr [Value.vInt 1, Value.vStr "a"])).1 ≠ []) ∧
    ((writeAsciiTagkey "x" (.vArr [Value.vInt 1, Value.vStr "a"])).2 ≠ none ∧
     (writeAsciiTagkey "x" (.vArr [Value.vInt 1, Value.vStr "a"])).1 ≠ "") := by
  decide

theorem hetero_array_error_after_flush_witness :
    writeBinaryTagkey "x" (.vArr (Value.vBool true :: ([] ++ Value.vStr "a" :: []))) =
      ((strToBytes "array" ++ [0] ++ strToBytes "bool" ++ [0]) ++
         ([120, 0] ++ ([2, 0, 0, 0] ++ ([1] ++ ([] : List Nat)))),
       some "ValueError: could not find suitable roff type") ∧
    writeAsciiTagkey "x" (.vArr (Value.vBool true :: ([] ++ Value.vStr "a" :: []))) =
      (("array " ++ "bool" ++ " " ++ "x" ++ " " ++
          natDecString (Value.vBool true :: ([] ++ Value.vStr "a" :: [])).length ++ "\n") ++
         ("1" ++ ("\n" ++ "")),
       some "RoffWriteError: Roff only allows homogenous arrays") :=
  ⟨(hetero_array_error_after_flush "x" "bool" "char" (Value.vBool true) (Value.vStr "a")
      [] []).1 [120, 0] [2, 0, 0, 0] [1] []
      (by decide) (by decide) (by decide) (by decide) (by decide) (by decide)
      (by decide),
   (hetero_array_error_after_flush "x" "bool" "char" (Value.vBool true) (Value.vStr "a")
      [] []).2 "1" ""
      (by decide) (by decide) (by decide) (by decide) (by decide) (by decide)⟩

theorem foldl_updateMeta_version_free (ts : List Tag) :
    (∀ t ∈ ts, ¬ t.1 = "version") → ∀ md0 : Metadata,
    (ts.foldl (fun md t => updateMeta md t.1 t.2) md0).version = md0.version := by
  induction ts with
  | nil => intro _ md0; rfl
  | cons t rest ih =>
    intro h md0
    rw [List.foldl_cons, ih (fun u hu => h u (by simp [hu]))]
    rw [updateMeta]
    by_cases hfd : t.1 = "filedata"
    · rw [if_pos hfd]
    · rw [if_neg hfd, if_neg (h t (by simp))]

theorem foldl_updateMeta_filedata_free (ts : List Tag) :
    (∀ t ∈ ts, ¬ t.1 = "filedata") → ∀ md0 : Metadata,
    (ts.foldl (fun md t => updateMeta md t.1 t.2) md0).filedata = md0.filedata := by
  induction ts with
  | nil => intro _ md0; rfl
  | cons t rest ih =>
    intro h md0
    rw [List.foldl_cons, ih (fun u hu => h u (by simp [hu]))]
    rw [updateMeta, if_neg (h t (by simp))]
    by_cases hv : t.1 = "version"
    · rw [if_pos hv]
    · rw [if_neg hv]

theorem mergeMeta_version (date : String) (pre post : List Tag)
    (kvs : List (String × Value))
    (hpre : ∀ t ∈ pre, ¬ t.1 = "version")
    (hpost : ∀ t ∈ post, ¬ t.1 = "version") :
    (mergeMeta date (pre ++ ("version", kvs) :: post)).version =
      kvs.foldl (fun d kv => dictInsert d kv.1 kv.2)
        [("major", Value.vInt 2), ("minor", Value.vInt 0)] := by
  have hu : ∀ md : Metadata, (updateMeta md "version" kvs).version =
      kvs.foldl (fun d kv => dictInsert d kv.1 kv.2) md.version := by
    intro md
    rw [updateMeta, if_neg (by decide), if_pos rfl]
  simp only [mergeMeta, List.foldl_append, List.foldl_cons]
  rw [foldl_updateMeta_version_free post hpost, hu,
    foldl_updateMeta_version_free pre hpre]
  rfl

theorem mergeMeta_filedata (date : String) (pre post : List Tag)
    (kvs : List (String × Value))
    (hpre : ∀ t ∈ pre, ¬ t.1 = "filedata")
    (hpost : ∀ t ∈ post, ¬ t.1 = "filedata") :
    (mergeMeta date (pre ++ ("filedata", kvs) :: post)).filedata =
      kvs.foldl (fun d kv => dictInsert d kv.1 kv.2)
        [("byteswaptest", Value.vInt 1), ("creationDate", Value.vStr date)] := by
  have hu : ∀ md : Metadata, (updateMeta md "filedata" kvs).filedata =
      kvs.foldl (fun d kv => dictInsert d kv.1 kv.2) md.filedata := by
    intro md
    rw [updateMeta, if_pos rfl]
  simp only [mergeMeta, List.foldl_append, List.foldl_cons]
  rw [foldl_updateMeta_filedata_free post hpost, hu,
    foldl_updateMeta_filedata_free pre hpre]
  rfl

theorem writeChecks_err1 (date : String) (values : List Tag)
    (h : (!(((lookupD (mergeMeta date values).version "major").getD (.vInt 0)).pyEqInt 2) ||
          !(((lookupD (mergeMeta date values).version "minor").getD (.vInt 1)).pyEqInt 0)) = true) :
    writeChecks date values = .error
      "ValueError: Cannot change roff file version in values given to roffio.write!" := by
  simp only [writeChecks]
  rw [if_pos h]

theorem writeChecks_err2 (date : String) (values : List Tag)
    (h1 : (!(((lookupD (mergeMeta date values).version "major").getD (.vInt 0)).pyEqInt 2) ||
           !(((lookupD (mergeMeta date values).version "minor").getD (.vInt 1)).pyEqInt 0)) = false)
    (h2 : (!((mergeMeta date values).version.all
            (fun kv => kv.1 == "major" || kv.1 == "minor"))) = true) :
    writeChecks date values = .error
      "ValueError: No additional fields in the version tag is permitted" := by
  simp only [writeChecks]
  rw [if_neg (by simp [h1]), if_pos h2]

theorem writeChecks_err3 (date : String) (values : List Tag)
    (h1 : (!(((lookupD (mergeMeta date values).version "major").getD (.vInt 0)).pyEqInt 2) ||
           !(((lookupD (mergeMeta date values).version "minor").getD (.vInt 1)).pyEqInt 0)) = false)
    (h2 : (!((mergeMeta date values).version.all
            (fun kv => kv.1 == "major" || kv.1 == "minor"))) = false)
    (h3 : (!(((lookupD (mergeMeta date values).filedata "byteswaptest").getD
            (.vInt 0)).pyEqInt 1)) = true) :
    writeChecks date values = .error
      "ValueError: It is not possible to set the byteswaptest value in roffio.write" := by
  simp only [writeChecks]
  rw [if_neg (by simp [h1]), if_neg (by simp [h2]), if_pos h3]

theorem writeBin_error (date ver : String) (values : List Tag) (m : String)
    (h : writeChecks date values = .error m) :
    writeBin date ver values = ([], some m) := by
  simp only [writeBin, h]

theorem writeAsc_error (date ver : String) (values : List Tag) (m : String)
    (h : writeChecks date values = .error m) :
    writeAsc date ver values = ("", some m) := by
  simp only [writeAsc, h]

/-- Claim C5: write with a caller-supplied version tag whose last major field
is not 2, or whose last minor field is not 0, fails validation with the
version error and writes nothing; write with a caller-supplied filedata tag
whose last byteswaptest field is not 1 fails validation with some error and
writes nothing.  Validation runs before any output in both formats. -/
theorem metadata_validation_errors (date ver : String) (pre post : List Tag)
    (kvs : List (String × Value)) :
    (∀ v : Value,
      (∀ t ∈ pre, ¬ t.1 = "version") → (∀ t ∈ post, ¬ t.1 = "version") →
      lookupLast kvs "major" = some v → ¬ v.pyEqInt 2 = true →
      writeChecks date (pre ++ ("version", kvs) :: post) = .error
        "ValueError: Cannot change roff file version in values given to roffio.write!" ∧
      writeBin date ver (pre ++ ("version", kvs) :: post) = ([], some
        "ValueError: Cannot change roff file version in values given to roffio.write!") ∧
      writeAsc date ver (pre ++ ("version", kvs) :: post) = ("", some
        "ValueError: Cannot change roff file version in values given to roffio.write!")) ∧
    (∀ v : Value,
      (∀ t ∈ pre, ¬ t.1 = "version") → (∀ t ∈ post, ¬ t.1 = "version") →
      lookupLast kvs "minor" = some v → ¬ v.pyEqInt 0 = true →
      writeChecks date (pre ++ ("version", kvs) :: post) = .error
        "ValueError: Cannot change roff file version in values given to roffio.write!" ∧
      writeBin date ver (pre ++ ("version", kvs) :: post) = ([], some
        "ValueError: Cannot change roff file version in values given to roffio.write!") ∧
      writeAsc date ver (pre ++ ("version", kvs) :: post) = ("", some
        "ValueError: Cannot change roff file version in values given to roffio.write!")) ∧
    (∀ v : Value,
      (∀ t ∈ pre, ¬ t.1 = "filedata") → (∀ t ∈ post, ¬ t.1 = "filedata") →
      lookupLast kvs "byteswaptest" = some v → ¬ v.pyEqInt 1 = true →
      ∃ m : String,
        writeChecks date (pre ++ ("filedata", kvs) :: post) = .error m ∧
        writeBin date ver (pre ++ ("filedata", kvs) :: post) = ([], some m) ∧
        writeAsc date ver (pre ++ ("filedata", kvs) :: post) = ("", some m)) := by
  refine ⟨?_, ?_, ?_⟩
  · intro v hpre hpost hmaj hv
    have hlv : lookupD
        (mergeMeta date (pre ++ ("version", kvs) :: post)).version "major" = some v := by
      rw [mergeMeta_version date pre post kvs hpre hpost,
        lookupD_foldl_dictInsert kvs "major" _]
      simp only [hmaj]
    have hc1 : (!(((lookupD (mergeMeta date (pre ++ ("version", kvs) :: post)).version
          "major").getD (.vInt 0)).pyEqInt 2) ||
        !(((lookupD (mergeMeta date (pre ++ ("version", kvs) :: post)).version
          "minor").getD (.vInt 1)).pyEqInt 0)) = true := by
      rw [hlv]
      rw [Bool.not_eq_true] at hv
      simp [hv]
    have hch := writeChecks_err1 date (pre ++ ("version", kvs) :: post) hc1
    exact ⟨hch, writeBin_error date ver _ _ hch, writeAsc_error date ver _ _ hch⟩
  · intro v hpre hpost hmin hv
    have hlv : lookupD
        (mergeMeta date (pre ++ ("version", kvs) :: post)).version "minor" = some v := by
      rw [mergeMeta_version date pre post kvs hpre hpost,
        lookupD_foldl_dictInsert kvs "minor" _]
      simp only [hmin]
    have hc1 : (!(((lookupD (mergeMeta date (pre ++ ("version", kvs) :: post)).version
          "major").getD (.vInt 0)).pyEqInt 2) ||
        !(((lookupD (mergeMeta date (pre ++ ("version", kvs) :: post)).version
          "minor").getD (.vInt 1)).pyEqInt 0)) = true := by
      rw [hlv]
      rw [Bool.not_eq_true] at hv
      simp [hv]
    have hch := writeChecks_err1 date (pre ++ ("version", kvs) :: post) hc1
    exact ⟨hch, writeBin_error date ver _ _ hch, writeAsc_error date ver _ _ hch⟩
  · intro v hpre hpost hbst hv
    by_cases hc1 : (!(((lookupD (mergeMeta date (pre ++ ("filedata", kvs) :: post)).version
          "major").getD (.vInt 0)).pyEqInt 2) ||
        !(((lookupD (mergeMeta date (pre ++ ("filedata", kvs) :: post)).version
          "minor").getD (.vInt 1)).pyEqInt 0)) = true
    · have hch := writeChecks_err1 date (pre ++ ("filedata", kvs) :: post) hc1
      exact ⟨_, hch, writeBin_error date ver _ _ hch, writeAsc_error date ver _ _ hch⟩
    · rw [Bool.not_eq_true] at hc1
      by_cases hc2 : (!((mergeMeta date (pre ++ ("filedata", kvs) :: post)).version.all
            (fun kv => kv.1 == "major" || kv.1 == "minor"))) = true
      · have hch := writeChecks_err2 date (pre ++ ("filedata", kvs) :: post) hc1 hc2
        exact ⟨_, hch, writeBin_error date ver _ _ hch, writeAsc_error date ver _ _ hch⟩
      · rw [Bool.not_eq_true] at hc2
        have hlv : lookupD
            (mergeMeta date (pre ++ ("filedata", kvs) :: post)).filedata
            "byteswaptest" = some v := by
          rw [mergeMeta_filedata date pre post kvs hpre hpost,
            lookupD_foldl_dictInsert kvs "byteswaptest" _]
          simp only [hbst]
        have hc3 : (!(((lookupD (mergeMeta date
              (pre ++ ("filedata", kvs) :: post)).filedata "byteswaptest").getD
              (.vInt 0)).pyEqInt 1)) = true := by
          rw [hlv]
          rw [Bool.not_eq_true] at hv
          simp [hv]
        have hch := writeChecks_err3 date (pre ++ ("filedata", kvs) :: post) hc1 hc2 hc3
        exact ⟨_, hch, writeBin_error date ver _ _ hch, writeAsc_error date ver _ _ hch⟩

theorem metadata_validation_errors_witness :
    (writeChecks "d" ([] ++ ("version",
        [("major", Value.vInt 3), ("minor", Value.vInt 5),
         ("byteswaptest", Value.vInt 0)]) :: []) = .error
      "ValueError: Cannot change roff file version in values given to roffio.write!" ∧
     writeBin "d" "r" ([] ++ ("version",
        [("major", Value.vInt 3), ("minor", Value.vInt 5),
         ("byteswaptest", Value.vInt 0)]) :: []) = ([], some
      "ValueError: Cannot change roff file version in values given to roffio.write!") ∧
     writeAsc "d" "r" ([] ++ ("version",
        [("major", Value.vInt 3), ("minor", Value.vInt 5),
         ("byteswaptest", Value.vInt 0)]) :: []) = ("", some
      "ValueError: Cannot change roff file version in values given to roffio.write!")) ∧
    (writeChecks "d" ([] ++ ("version",
        [("major", Value.vInt 3), ("minor", Value.vInt 5),
         ("byteswaptest", Value.vInt 0)]) :: []) = .error
      "ValueError: Cannot change roff file version in values given to roffio.write!" ∧
     writeBin "d" "r" ([] ++ ("version",
        [("major", Value.vInt 3), ("minor", Value.vInt 5),
         ("byteswaptest", Value.vInt 0)]) :: []) = ([], some
      "ValueError: Cannot change roff file version in values given to roffio.write!") ∧
     writeAsc "d" "r" ([] ++ ("version",
        [("major", Value.vInt 3), ("minor", Value.vInt 5),
         ("byteswaptest", Value.vInt 0)]) :: []) = ("", some
      "ValueError: Cannot change roff file version in values given to roffio.write!")) ∧
    (∃ m : String,
      writeChecks "d" ([] ++ ("filedata",
          [("major", Value.vInt 3), ("minor", Value.vInt 5),
           ("byteswaptest", Value.vInt 0)]) :: []) = .error m ∧
      writeBin "d" "r" ([] ++ ("filedata",
          [("major", Value.vInt 3), ("minor", Value.vInt 5),
           ("byteswaptest", Value.vInt 0)]) :: []) = ([], some m) ∧
      writeAsc "d" "r" ([] ++ ("filedata",
          [("major", Value.vInt 3), ("minor", Value.vInt 5),
           ("byteswaptest", Value.vInt 0)]) :: []) = ("", some m)) :=
  ⟨(metadata_validation_errors "d" "r" [] []
      [("major", Value.vInt 3), ("minor", Value.vInt 5),
       ("byteswaptest", Value.vInt 0)]).1 (Value.vInt 3)
      (by decide) (by decide) (by decide) (by decide),
   (metadata_validation_errors "d" "r" [] []
      [("major", Value.vInt 3), ("minor", Value.vInt 5),
       ("byteswaptest", Value.vInt 0)]).2.1 (Value.vInt 5)
      (by decide) (by decide) (by decide) (by decide),
   (metadata_validation_errors "d" "r" [] []
      [("major", Value.vInt 3), ("minor", Value.vInt 5),
       ("byteswaptest", Value.vInt 0)]).2.2 (Value.vInt 0)
      (by decide) (by decide) (by decide) (by decide)⟩

theorem natToBytesLE_lt : ∀ (w m : Nat), ∀ b ∈ natToBytesLE w m, b < 256 := by
  intro w
  induction w with
  | zero => intro m b hb; simp [natToBytesLE] at hb
  | succ ww ih =>
    intro m b hb
    rw [natToBytesLE] at hb
    rcases List.mem_cons.mp hb with rfl | hb2
    · exact Nat.mod_lt m (by omega)
    · exact ih (m / 256) b hb2

theorem bindT_cons_ok {t : Tokenizer} {p p1 : Nat} {tk : List Token}
    (h : t p = ⟨tk, .ok p1⟩) (rest : List Tokenizer) :
    bindT (t :: rest) p = ⟨tk ++ (bindT rest p1).toks, (bindT rest p1).res⟩ := by
  rw [bindT, h]

theorem bindT_cons_err {t : Tokenizer} {p : Nat} {tk : List Token}
    {e : String × Nat} (h : t p = ⟨tk, .error e⟩) (rest : List Tokenizer) :
    bindT (t :: rest) p = ⟨tk, .error e⟩ := by
  rw [bindT, h]

theorem oneOfGo_nil (p : Nat) (acc : List Token) (errs : List String) :
    oneOfGo [] p acc errs = ⟨acc, .error (aggError errs, p)⟩ := rfl

theorem oneOfGo_cons_err {t : Tokenizer} {p p1 : Nat} {tk : List Token}
    {m : String} (h : t p = ⟨tk, .error (m, p1)⟩) (rest : List Tokenizer)
    (acc : List Token) (errs : List String) :
    oneOfGo (t :: rest) p acc errs = oneOfGo rest p1 (acc ++ tk) (errs ++ [m]) := by
  rw [oneOfGo, h]

theorem repeatedT_succ_err {t : Tokenizer} {p p1 : Nat} {tk : List Token}
    {m : String} (h : t p = ⟨tk, .error (m, p1)⟩) (f : Nat) :
    repeatedT (f + 1) t p = ⟨tk, .ok p1⟩ := by
  rw [repeatedT, h]

theorem binaryEnded_err {s : List Nat} {t : Tokenizer} {p : Nat}
    {tk : List Token} {e : String × Nat} (h : t p = ⟨tk, .error e⟩) :
    binaryEnded s t p = ⟨tk, .error e⟩ := by
  rw [binaryEnded, h]

theorem tokenizeWord_fail [DecidableEq α] {s : List α} {p : Nat} {w : List α}
    (hne : (sread s p w.length).1 ≠ w) (kind : TokenKind) :
    tokenizeWord s w kind p = ⟨[], .error ("Token did not match", p)⟩ := by
  simp only [tokenizeWord]
  rw [if_neg hne]

theorem sread_short_ne [DecidableEq α] {s : List α} {p : Nat} {w : List α}
    (h : s.length < p + w.length) (hw : 0 < w.length) :
    (sread s p w.length).1 ≠ w := by
  intro heq
  have hl := congrArg List.length heq
  simp only [sread] at hl
  have h2 : ((s.drop p).take w.length).length ≤ (s.drop p).length :=
    (List.take_sublist _ _).length_le
  rw [hl, List.length_drop] at h2
  omega

theorem bbComment_fail {s : List Nat} {p : Nat}
    (h : (s.drop p).head? ≠ some 35) :
    bbTokenizeComment s p = ⟨[], .error ("Expected comment", p)⟩ := by
  have hr : (sread s p 1).1 ≠ [35] := by
    intro heq
    apply h
    simp only [sread] at heq
    cases hd : s.drop p with
    | nil => rw [hd] at heq; simp at heq
    | cons x xs =>
      rw [hd] at heq
      simp at heq
      rw [heq]
      rfl
  simp only [bbTokenizeComment]
  rw [if_neg hr]

theorem repeated_noComment {s : List Nat} {p : Nat} {fuel : Nat}
    (hfuel : 1 ≤ fuel) (h : (s.drop p).head? ≠ some 35) :
    repeatedT fuel (bbTokenizeComment s) p = ⟨[], .ok p⟩ := by
  obtain ⟨f, rfl⟩ : ∃ f, fuel = f + 1 := ⟨fuel - 1, by omega⟩
  rw [repeatedT_succ_err (bbComment_fail h) f]

theorem bbKeyword_fail {s : List Nat} {fuel : Nat} (kw : TokenKind) {p : Nat}
    (hcmt : repeatedT fuel (bbTokenizeComment s) p = ⟨[], .ok p⟩)
    (hw : (sread s p (strToBytes (TokenKind.keywordString kw)).length).1 ≠
      strToBytes (TokenKind.keywordString kw)) :
    bbTokenizeKeyword s fuel kw p = ⟨[], .error ("Token did not match", p)⟩ := by
  rw [bbTokenizeKeyword, bindT_cons_ok hcmt,
    bindT_cons_err (binaryEnded_err (tokenizeWord_fail hw kw))]
  rfl

theorem head?_none_of_drop_nil {s : List α} {p : Nat} (h : s.drop p = []) :
    (s.drop p).head? = none := by
  rw [h]
  rfl

theorem SAt.split {s : List α} {p : Nat} {a b : List α} (h : SAt s p (a ++ b)) :
    SAt s p a ∧ SAt s (p + a.length) b := ⟨h.mono, h.shift⟩

theorem tagGroup_fail_at_end {s : List Nat} {fuel : Nat} (e : Endianess)
    {p : Nat} (hfuel : 1 ≤ fuel) (hend : s.drop p = []) :
    bbTokenizeTagGroup s fuel e p = ⟨[], .error ("Token did not match", p)⟩ := by
  have h35 : (s.drop p).head? ≠ some 35 := by
    rw [head?_none_of_drop_nil hend]
    simp
  have hcmt := repeated_noComment hfuel h35
  have hword : (sread s p
      (strToBytes (TokenKind.keywordString .tag)).length).1 ≠
      strToBytes (TokenKind.keywordString .tag) := by
    rw [sread_at_end hend]
    show ([] : List Nat) ≠ strToBytes (TokenKind.keywordString .tag)
    decide
  have hkw := bbKeyword_fail .tag hcmt hword
  rw [bbTokenizeTagGroup, bindT_cons_err hkw]

theorem sread_one {s : List α} {p : Nat} {c : α} (h : SAt s p [c]) :
    sread s p 1 = ([c], p + 1) := by
  have := sread_full_of_SAt h
  simpa using this

theorem ttComment_fail {s : List Char} {p : Nat} {c : Char}
    (h : SAt s p [c]) (hc : c ≠ '#') :
    ttTokenizeComment s p = ⟨[], .error ("Expected comment", p)⟩ := by
  have h1 : sread s p 1 = ([c], p + 1) := sread_one h
  simp only [ttTokenizeComment, h1]
  rw [if_neg (by simp [hc])]

theorem ttSpace_fail {s : List Char} {p : Nat} {c : Char}
    (h : SAt s p [c]) (hc : pyIsSpace c = false) :
    ttTokenizeSpace s p = ⟨[], .error ("Expected space at start", p)⟩ := by
  have h1 : sread s p 1 = ([c], p + 1) := sread_one h
  simp only [ttTokenizeSpace, h1]
  rw [if_neg (by simp [hc])]

theorem ttDelimStep_fail {s : List Char} {p : Nat} {c : Char}
    (h : SAt s p [c]) (hc1 : c ≠ '#') (hc2 : pyIsSpace c = false) :
    ∃ m, oneOfT [ttTokenizeComment s, ttTokenizeSpace s] p =
      ⟨[], .error (m, p)⟩ := by
  refine ⟨aggError ["Expected comment", "Expected space at start"], ?_⟩
  rw [oneOfT]
  show oneOfGo [ttTokenizeComment s, ttTokenizeSpace s] p [] [] = _
  rw [oneOfGo_cons_err (ttComment_fail h hc1),
    oneOfGo_cons_err (ttSpace_fail h hc2), oneOfGo_nil]
  rfl

theorem ttDelim_stop {s : List Char} {fuel : Nat} {p : Nat} {c : Char}
    (hfuel : 1 ≤ fuel) (h : SAt s p [c]) (hc1 : c ≠ '#')
    (hc2 : pyIsSpace c = false) :
    ttDelimiter s fuel p = ⟨[], .ok p⟩ := by
  obtain ⟨f, rfl⟩ : ∃ f, fuel = f + 1 := ⟨fuel - 1, by omega⟩
  obtain ⟨m, hm⟩ := ttDelimStep_fail h hc1 hc2
  rw [ttDelimiter, repeatedT_succ_err hm]

theorem ttValue_fail {s : List Char} {fuel : Nat} {p : Nat} {c : Char}
    (hfuel : 1 ≤ fuel) (h : SAt s p [c]) (h1 : c ≠ '#')
    (h2 : pyIsSpace c = false) (h3 : (pyIsNumeric c || c = '-') = false)
    (h5 : c ≠ '\"') :
    ∃ m, ttTokenizeValue s fuel p = ⟨[], .error (m, p)⟩ := by
  have hdel := ttDelim_stop hfuel h h1 h2
  have hnum : ttTokenizeNumericValue s fuel p =
      ⟨[], .error ("Expected numeric value", p)⟩ := by
    simp only [ttTokenizeNumericValue, hdel, ttTokenizeNumericRaw,
      sread_one h]
    rw [if_neg (by simp [h3])]
  have hstr : ttTokenizeStringLiteral s fuel p =
      ⟨[], .error ("Expected string", p)⟩ := by
    simp only [ttTokenizeStringLiteral, hdel, ttStringRaw, sread_one h]
    rw [if_neg (by simp [h5])]
  refine ⟨aggError ["Expected numeric value", "Expected string"], ?_⟩
  rw [ttTokenizeValue]
  show oneOfGo [ttTokenizeNumericValue s fuel,
    ttTokenizeStringLiteral s fuel] p [] [] = _
  rw [oneOfGo_cons_err hnum, oneOfGo_cons_err hstr, oneOfGo_nil]
  rfl

theorem char_quote_of_toNat {c : Char} (h : c.toNat = 34) : c = '"' := by
  have hv : c.val = ('"' : Char).val := by
    apply UInt32.eq_of_val_eq ?_
    exact Fin.ext h
  exact Char.ext hv

end Roffio
